import Mathlib

/-!
# Verification of the mebuki financial-analysis core

Shallow embedding of the period-reconciliation, validity-filter, metrics-derivation
and price-alignment code of the mebuki repository
(`mebuki/utils/converters.py`, `mebuki/utils/financial_data.py`,
`mebuki/analysis/calculator.py`, `mebuki/utils/errors.py`,
`mebuki/api/jquants_client.py`), together with theorems settling the
specification claims about that code.

Modelling conventions:
* Python scalar values that appear in upstream records are modelled by `Val`:
  `None`, strings, finite floats (as exact rationals), and the float NaN.
  Float infinities are collapsed onto the NaN marker where arithmetic could
  produce them (no claim exercises infinities).
* A Python dict record is an insertion-ordered association list `Rec`;
  an absent key is distinguished from a key stored with value `None`.
* `datetime.now()` is injected as an explicit `Date` parameter, per the spec's
  "injected now".
* Places where the Python code would raise `TypeError` on non-string date
  fields are modelled totally (the value is read as the empty string); the
  example inputs used in witnesses keep all date fields string-typed.
-/

namespace Mebuki

/-- A Python scalar value as it occurs in upstream financial records:
`None`, a string, a finite float (exact rational), or the float NaN. -/
inductive Val where
  | none : Val
  | nan : Val
  | num : ℚ → Val
  | str : String → Val
deriving DecidableEq, Inhabited

/-- Python truthiness of a `Val` (`bool(v)`). -/
def Val.truthy : Val → Bool
  | .none => false
  | .nan => true
  | .num q => q != 0
  | .str s => s != ""

/-- A Python dict record: insertion-ordered association list from field names to values. -/
abbrev Rec : Type := List (String × Val)

/-- Raw dict lookup distinguishing an absent key (`Option.none`) from a stored value. -/
def getV : Rec → String → Option Val
  | [], _ => Option.none
  | (k', v) :: rest, k => if k' = k then some v else getV rest k

/-- Python `record.get(k)`: `None` when the key is absent. -/
def pyGet (r : Rec) (k : String) : Val := (getV r k).getD .none

/-- Python `record.get(k, d)`: the default only applies when the key is absent. -/
def pyGetD (r : Rec) (k : String) (d : Val) : Val := (getV r k).getD d

/-- Python `record[k] = v`: replace in place if present, else append (dict order). -/
def setV : Rec → String → Val → Rec
  | [], k, v => [(k, v)]
  | (k', v') :: rest, k, v => if k' = k then (k', v) :: rest else (k', v') :: setV rest k v

/-- The result of Python's `float(string)`: a finite value, an infinity, or NaN. -/
inductive PyFloat where
  | fin : ℚ → PyFloat
  | inf : Bool → PyFloat
  | nan : PyFloat
deriving DecidableEq

/-- Numeric value of a decimal digit character. -/
def digitVal (c : Char) : ℕ := c.toNat - 48

/-- Value of a digit list read as a natural number. -/
def digitsToNat (l : List Char) : ℕ := l.foldl (fun acc c => 10 * acc + digitVal c) 0

/-- Case-insensitive character match against a lowercase letter. -/
def chEq (c lo : Char) : Bool := c = lo || c.toNat = lo.toNat - 32

/-- Case-insensitive match of a character list against a lowercase keyword. -/
def kwMatch : List Char → List Char → Bool
  | [], [] => true
  | c :: cs, k :: ks => chEq c k && kwMatch cs ks
  | _, _ => false

/-- Exponent part of a float literal: optional sign then nonempty digits. -/
def parseExp : List Char → Option ℤ
  | '+' :: rest => if rest ≠ [] && rest.all Char.isDigit then some (digitsToNat rest) else Option.none
  | '-' :: rest => if rest ≠ [] && rest.all Char.isDigit then some (-(digitsToNat rest : ℤ)) else Option.none
  | rest => if rest ≠ [] && rest.all Char.isDigit then some (digitsToNat rest) else Option.none

/-- Mantissa-with-exponent of a float literal after the optional sign:
integer digits, optional fractional digits, optional exponent. -/
def parseMantissa (l : List Char) : Option ℚ :=
  let intPart := l.takeWhile Char.isDigit
  let rest1 := l.dropWhile Char.isDigit
  match rest1 with
  | [] => if intPart ≠ [] then some (digitsToNat intPart : ℚ) else Option.none
  | '.' :: rest2 =>
    let fracPart := rest2.takeWhile Char.isDigit
    let rest3 := rest2.dropWhile Char.isDigit
    if intPart = [] && fracPart = [] then Option.none
    else
      let base : ℚ := (digitsToNat intPart : ℚ) + (digitsToNat fracPart : ℚ) / (10 ^ fracPart.length : ℚ)
      match rest3 with
      | [] => some base
      | 'e' :: e => (parseExp e).map (fun k => base * (10 : ℚ) ^ k)
      | 'E' :: e => (parseExp e).map (fun k => base * (10 : ℚ) ^ k)
      | _ => Option.none
  | 'e' :: e => if intPart ≠ [] then (parseExp e).map (fun k => (digitsToNat intPart : ℚ) * (10 : ℚ) ^ k) else Option.none
  | 'E' :: e => if intPart ≠ [] then (parseExp e).map (fun k => (digitsToNat intPart : ℚ) * (10 : ℚ) ^ k) else Option.none
  | _ => Option.none

/-- Unsigned body of a float literal: a keyword (`inf`, `infinity`, `nan`) or a decimal. -/
def parseBody (l : List Char) (neg : Bool) : Option PyFloat :=
  if kwMatch l ['i','n','f'] || kwMatch l ['i','n','f','i','n','i','t','y'] then some (.inf neg)
  else if kwMatch l ['n','a','n'] then some .nan
  else (parseMantissa l).map (fun q => .fin (if neg then -q else q))

/-- Python `float(string)` on the decimal fragment: surrounding whitespace,
optional sign, keyword or decimal literal.  Returns `Option.none` where Python
raises `ValueError`. -/
def pyFloat? (s : String) : Option PyFloat :=
  let l := (s.toList.dropWhile Char.isWhitespace).reverse.dropWhile Char.isWhitespace |>.reverse
  match l with
  | '+' :: rest => parseBody rest false
  | '-' :: rest => parseBody rest true
  | rest => parseBody rest false

/-- Python `int(string)`: surrounding whitespace, optional sign, nonempty digits.
Returns `Option.none` where Python raises `ValueError`. -/
def pyInt? (s : String) : Option ℤ :=
  let l := (s.toList.dropWhile Char.isWhitespace).reverse.dropWhile Char.isWhitespace |>.reverse
  match l with
  | '+' :: rest => if rest ≠ [] && rest.all Char.isDigit then some (digitsToNat rest) else Option.none
  | '-' :: rest => if rest ≠ [] && rest.all Char.isDigit then some (-(digitsToNat rest : ℤ)) else Option.none
  | rest => if rest ≠ [] && rest.all Char.isDigit then some (digitsToNat rest) else Option.none

/-- `converters.to_float`: strips commas and the full-width minus from strings,
rejects NaN, returns `Option.none` on any non-numeric input (never raises).
Float infinities from string parsing are outside the rational model and map to
`Option.none`. -/
def to_float (v : Val) : Option ℚ :=
  match v with
  | .none => Option.none
  | .nan => Option.none
  | .num q => some q
  | .str s =>
    let s' := ((s.replace "," "").replace "－" "").trim
    if s' = "" then Option.none
    else match pyFloat? s' with
      | some (.fin q) => some q
      | _ => Option.none

/-- `converters.is_nan`: the float NaN, or a string that `float()` parses to NaN. -/
def is_nan (v : Val) : Bool :=
  match v with
  | .nan => true
  | .str s => match pyFloat? s with
    | some .nan => true
    | _ => false
  | _ => false

/-- `converters.is_valid_value`: `None`, NaN, the empty string and zero are
invalid; everything else must coerce via `float()` to a nonzero value. -/
def is_valid_value (v : Val) : Bool :=
  match v with
  | .none => false
  | .nan => false
  | .num q => q != 0
  | .str s =>
    if s = "" then false
    else match pyFloat? s with
      | some (.fin q) => q != 0
      | some (.inf _) => true
      | _ => false

/-- `converters.is_valid_financial_record`: at least one of
Sales/OP/NP/Eq is a valid value, or both `CurFYEn` and `DiscDate` are truthy. -/
def is_valid_financial_record (r : Rec) : Bool :=
  is_valid_value (pyGet r "Sales") || is_valid_value (pyGet r "OP") ||
  is_valid_value (pyGet r "NP") || is_valid_value (pyGet r "Eq") ||
  ((pyGet r "CurFYEn").truthy && (pyGet r "DiscDate").truthy)

/-! ## Calendar dates (Python `datetime.date` fragment) -/

/-- A calendar date; only dates accepted by `datetime` (year 1..9999) are built. -/
structure Date where
  y : ℤ
  m : ℤ
  d : ℤ
deriving DecidableEq

/-- Gregorian leap year (Python `%` on nonnegative moduli is `Int.emod`). -/
def isLeap (y : ℤ) : Bool := (y % 4 = 0 && y % 100 != 0) || y % 400 = 0

/-- Number of days in a month. -/
def daysInMonth (y m : ℤ) : ℤ :=
  if m = 2 then (if isLeap y then 29 else 28)
  else if m = 4 || m = 6 || m = 9 || m = 11 then 30 else 31

/-- Validity exactly as checked by the `datetime` constructor. -/
def validYmd (y m d : ℤ) : Bool :=
  1 ≤ y && y ≤ 9999 && 1 ≤ m && m ≤ 12 && 1 ≤ d && d ≤ daysInMonth y m

/-- `datetime(y, m, d)` with `ValueError` modelled as `Option.none`. -/
def mkDate? (y m d : ℤ) : Option Date :=
  if validYmd y m d then some ⟨y, m, d⟩ else Option.none

/-- Strict comparison of dates (Python `datetime` comparison at day granularity). -/
def dateLt (a b : Date) : Bool :=
  a.y < b.y || (a.y = b.y && (a.m < b.m || (a.m = b.m && a.d < b.d)))

/-- Two-digit zero-padded decimal rendering. -/
def pad2 (n : ℕ) : List Char := [Nat.digitChar (n / 10 % 10), Nat.digitChar (n % 10)]

/-- Four-digit zero-padded decimal rendering. -/
def pad4 (n : ℕ) : List Char :=
  [Nat.digitChar (n / 1000 % 10), Nat.digitChar (n / 100 % 10),
   Nat.digitChar (n / 10 % 10), Nat.digitChar (n % 10)]

/-- `strftime("%Y-%m-%d")`, with the year zero-padded to four digits. -/
def fmt10 (dt : Date) : String :=
  ⟨pad4 dt.y.toNat ++ '-' :: (pad2 dt.m.toNat ++ '-' :: pad2 dt.d.toNat)⟩

/-- `datetime.strptime(s, "%Y%m%d")`: exactly eight digits forming a real date. -/
def parse8? (s : String) : Option Date :=
  match s.toList with
  | [y1, y2, y3, y4, m1, m2, d1, d2] =>
    if [y1, y2, y3, y4, m1, m2, d1, d2].all Char.isDigit then
      mkDate? (digitsToNat [y1, y2, y3, y4]) (digitsToNat [m1, m2]) (digitsToNat [d1, d2])
    else Option.none
  | _ => Option.none

/-- `datetime.strptime(s, "%Y-%m-%d")` on a ten-character string. -/
def parse10? (s : String) : Option Date :=
  match s.toList with
  | [y1, y2, y3, y4, h1, m1, m2, h2, d1, d2] =>
    if h1 = '-' && h2 = '-' && [y1, y2, y3, y4, m1, m2, d1, d2].all Char.isDigit then
      mkDate? (digitsToNat [y1, y2, y3, y4]) (digitsToNat [m1, m2]) (digitsToNat [d1, d2])
    else Option.none
  | _ => Option.none

/-- Day number of a date (days-from-civil, floor-division form). -/
def toOrd (dt : Date) : ℤ :=
  let yy := if dt.m ≤ 2 then dt.y - 1 else dt.y
  let era := Int.fdiv yy 400
  let yoe := yy - era * 400
  let mp := if dt.m ≤ 2 then dt.m + 9 else dt.m - 3
  let doy := (153 * mp + 2) / 5 + dt.d - 1
  let doe := yoe * 365 + yoe / 4 - yoe / 100 + doy
  era * 146097 + doe - 719468

/-- Date of a day number (civil-from-days). -/
def fromOrd (z0 : ℤ) : Date :=
  let z := z0 + 719468
  let era := Int.fdiv z 146097
  let doe := z - era * 146097
  let yoe := (doe - doe / 1460 + doe / 36524 - doe / 146096) / 365
  let yv := yoe + era * 400
  let doy := doe - (365 * yoe + yoe / 4 - yoe / 100)
  let mp := (5 * doy + 2) / 153
  let dd := doy - (153 * mp + 2) / 5 + 1
  let mm := if mp < 10 then mp + 3 else mp - 9
  if mm ≤ 2 then ⟨yv + 1, mm, dd⟩ else ⟨yv, mm, dd⟩

/-! ## Stable sorting (Python `list.sort`)

Python's `list.sort(key=..)` is a stable sort; any stable sort computes the same
list, so it is modelled by insertion sort over a boolean `≤`-relation on the keys. -/

/-- Insert `a` before the first element `b` with `le a b` (stable insertion). -/
def ordIns (le : α → α → Bool) (a : α) : List α → List α
  | [] => [a]
  | b :: l => if le a b then a :: b :: l else b :: ordIns le a l

/-- Stable insertion sort. -/
def insSort (le : α → α → Bool) : List α → List α
  | [] => []
  | a :: l => ordIns le a (insSort le l)

/-- Constructor rank used to totalise cross-type comparisons.  (Python raises
`TypeError` when ordering values of different types; records reaching the
sorts below carry same-typed keys, so the rank order is never observable.) -/
def Val.rank : Val → ℕ
  | .none => 0
  | .nan => 1
  | .num _ => 2
  | .str _ => 3

/-- Code-point comparison of strings as character lists (Python string `<`). -/
def strLtL : List Char → List Char → Bool
  | [], [] => false
  | [], _ :: _ => true
  | _ :: _, [] => false
  | a :: as, b :: bs =>
    if a.toNat < b.toNat then true
    else if b.toNat < a.toNat then false
    else strLtL as bs

/-- Python string `<`. -/
def strLtB (s t : String) : Bool := strLtL s.toList t.toList

/-- Total comparison of `Val` sort keys (Python `<=` on same-typed values). -/
def valLe (a b : Val) : Bool :=
  match a, b with
  | .num p, .num q => p ≤ q
  | .str s, .str t => !strLtB t s
  | a, b => a.rank ≤ b.rank

/-- Python tuple `<=` on a pair of keys (lexicographic). -/
def valPairLe (p q : Val × Val) : Bool :=
  if p.1 = q.1 then valLe p.2 q.2 else valLe p.1 q.1

/-- Two elements tied under a sort relation (equal sort keys). -/
def tieB (le : α → α → Bool) (a b : α) : Bool := le a b && le b a

/-- The string content of a value (empty for non-strings), the view under
which the Python code reads date fields. -/
def strOfVal : Val → String
  | .str s => s
  | _ => ""

/-! ## Period reconciliation: `financial_data.extract_annual_data` -/

/-- Generic first-match association lookup. -/
def getA {α : Type} : List (String × α) → String → Option α
  | [], _ => Option.none
  | (k', v) :: rest, k => if k' = k then some v else getA rest k

/-- Generic association update (replace in place, else append). -/
def setA {α : Type} : List (String × α) → String → α → List (String × α)
  | [], k, v => [(k, v)]
  | (k', v') :: rest, k, v => if k' = k then (k', v) :: rest else (k', v') :: setA rest k v

/-- Overwrite guard of the reconciliation merge
(`is_valid_value(val) or (val is not None and val != "")`). -/
def overwriteGuard (v : Val) : Bool :=
  is_valid_value v || (v != Val.none && v != Val.str "")

/-- Merge one later record into the stored composite: overwrite each field whose
incoming value passes the guard, then always store the incoming `DiscDate`
(falling back to the existing one only when the key is absent). -/
def mergeTwo (ex r : Rec) : Rec :=
  let ex1 := r.foldl (fun acc kv => if overwriteGuard kv.2 then setV acc kv.1 kv.2 else acc) ex
  setV ex1 "DiscDate"
    (match getV r "DiscDate" with
     | some v => v
     | Option.none => (getV ex1 "DiscDate").getD Val.none)

/-- Keyed lookup in the fold accumulator. -/
def lookupK {κ : Type} [DecidableEq κ] : List (κ × Rec) → κ → Option Rec
  | [], _ => Option.none
  | (k', v) :: rest, k => if k' = k then some v else lookupK rest k

/-- Keyed in-place update of the fold accumulator. -/
def updateK {κ : Type} [DecidableEq κ] : List (κ × Rec) → κ → Rec → List (κ × Rec)
  | [], k, v => [(k, v)]
  | (k', v') :: rest, k, v => if k' = k then (k', v) :: rest else (k', v') :: updateK rest k v

/-- The reconciliation fold: seed the first record per key, merge later ones,
preserving dict insertion order. -/
def mergeFoldG {κ : Type} [DecidableEq κ] (keyOf : Rec → Option κ) :
    List (κ × Rec) → List Rec → List (κ × Rec)
  | acc, [] => acc
  | acc, r :: rest =>
    match keyOf r with
    | Option.none => mergeFoldG keyOf acc rest
    | some k =>
      match lookupK acc k with
      | Option.none => mergeFoldG keyOf (acc ++ [(k, r)]) rest
      | some ex => mergeFoldG keyOf (updateK acc k (mergeTwo ex r)) rest

/-- Values of the reconciliation fold, in insertion order. -/
def mergeValsG {κ : Type} [DecidableEq κ] (keyOf : Rec → Option κ) (l : List Rec) : List Rec :=
  (mergeFoldG keyOf [] l).map Prod.snd

/-- Merge key of the annual reconciliation: the raw `CurFYEn` value, for truthy values. -/
def annualKey (r : Rec) : Option Val :=
  let k := pyGet r "CurFYEn"
  if k.truthy then some k else Option.none

/-- Value of a date field read as a string (`record.get(k, "")`); the Python code
raises `TypeError` on non-string truthy values, modelled as the empty string. -/
def getStr (r : Rec) (k : String) : String :=
  match pyGetD r k (.str "") with
  | .str s => s
  | _ => ""

/-- Disclosure-date parse of the future-exclusion check
(8 → `%Y%m%d`, 10 → `%Y-%m-%d`, other lengths unparsed). -/
def parseDiscDate (ds : String) : Option Date :=
  if ds.length = 8 then parse8? ds
  else if ds.length = 10 then parse10? ds
  else Option.none

/-- Drop condition: a parseable disclosure date strictly after the injected now. -/
def annualDiscFuture (today : Date) (r : Rec) : Bool :=
  let ds := getStr r "DiscDate"
  ds != "" &&
  (match parseDiscDate ds with
   | some dt => dateLt today dt
   | Option.none => false)

/-- Substring by character positions (Python slice `s[a:b]` for `a ≤ b`). -/
def strSlice (s : String) (a b : ℕ) : String := ⟨(s.toList.drop a).take (b - a)⟩

/-- Python `int(s[a:b])`; the annual extraction does not catch its `ValueError`,
so the failure value 0 is never observable on inputs where the code runs. -/
def sliceInt (s : String) (a b : ℕ) : ℤ := (pyInt? (strSlice s a b)).getD 0

/-- Fiscal-year-end (year, month) slices, defined only for lengths 8 and 10. -/
def annualFyYM (fy : String) : Option (ℤ × ℤ) :=
  if fy.length = 8 then some (sliceInt fy 0 4, sliceInt fy 4 6)
  else if fy.length = 10 then some (sliceInt fy 0 4, sliceInt fy 5 7)
  else Option.none

/-- Strictly-after comparison of (year, month) against the injected now. -/
def ymFuture (today : Date) (p : ℤ × ℤ) : Bool :=
  p.1 > today.y || (p.1 = today.y && p.2 > today.m)

/-- Period-type filter: `"FY"`, or `"2Q"` when requested. -/
def annualTypeOK (include_2q : Bool) (r : Rec) : Bool :=
  pyGet r "CurPerType" = Val.str "FY" || (include_2q && pyGet r "CurPerType" = Val.str "2Q")

/-- One pass of the annual filter loop: type filter, disclosure-date future
check, fiscal-year-end future check (bypassed for unparseable lengths, which
are kept immediately), validity filter. -/
def annualKeep (today : Date) (include_2q : Bool) (r : Rec) : Bool :=
  annualTypeOK include_2q r && !annualDiscFuture today r &&
  (let fy := getStr r "CurFYEn"
   if fy = "" then is_valid_financial_record r
   else
     match annualFyYM fy with
     | Option.none => true
     | some ym => !ymFuture today ym && is_valid_financial_record r)

/-- Ascending sort key relation of the annual extraction:
`(CurFYEn, DiscDate)` with dict-get defaults `""`. -/
def fyKey (r : Rec) : Val := pyGetD r "CurFYEn" (.str "")

/-- The `DiscDate` sort key with dict-get default `""`. -/
def discKey (r : Rec) : Val := pyGetD r "DiscDate" (.str "")

/-- Ascending `(CurFYEn, DiscDate)` comparison. -/
def ascLeA (a b : Rec) : Bool := valPairLe (fyKey a, discKey a) (fyKey b, discKey b)

/-- Descending `CurFYEn` comparison (`reverse=True`, stable). -/
def descLeA (a b : Rec) : Bool := valLe (fyKey b) (fyKey a)

/-- `financial_data.extract_annual_data` with the process clock injected:
filter, ascending sort, keyed merge, descending sort. -/
def extract_annual_data (today : Date) (l : List Rec) (include_2q : Bool) : List Rec :=
  let annual := l.filter (annualKeep today include_2q)
  let sorted := insSort ascLeA annual
  let merged := mergeValsG annualKey sorted
  insSort descLeA merged

/-! ## Price alignment: `jquants_client.get_prices_at_dates`

The batch fetch and its total-failure fallback are abstract collaborators
(spec §6); the embedding takes the fetched `bars_by_date` map as input and
models the per-date resolution loop. -/

/-- Python `x or y` on optional price values (`None`, `0` and `0.0` are falsy). -/
def pyOrV (a b : Option Val) : Option Val :=
  if (a.getD Val.none).truthy then a else b

/-- Normalisation of a requested date string
(dash form truncated to 10 chars, digit form re-punctuated). -/
def normalizeReqDate (s : String) : String :=
  if s.toList.contains '-' then strSlice s 0 10
  else strSlice s 0 4 ++ "-" ++ strSlice s 4 6 ++ "-" ++ strSlice s 6 8

/-- The backward walk: probe one calendar day at a time over the given offsets,
returning the first close found. -/
def walkBack (bars : List (String × Val)) (ord : ℤ) : List ℕ → Option Val
  | [] => Option.none
  | i :: rest =>
    match getA bars (fmt10 (fromOrd (ord - i))) with
    | some v => some v
    | Option.none => walkBack bars ord rest

/-- Price resolution for one requested date: exact lookup under both key forms,
then up to ten days of backward walk; `Option.none` (never an error) if nothing
is found. -/
def getPriceForDate (bars : List (String × Val)) (dateStr : String) (dObj : Date)
    (useNearest : Bool) : Option Val :=
  let nd := normalizeReqDate dateStr
  match pyOrV (getA bars nd) (getA bars dateStr) with
  | some v => some v
  | Option.none =>
    if useNearest then walkBack bars (toOrd dObj) (List.range' 1 10) else Option.none

/-- Parse of a requested date (`strptime` on the truncated string). -/
def parseReqDate (s : String) : Option Date :=
  if s.toList.contains '-' then parse10? (strSlice s 0 10) else parse8? (strSlice s 0 8)

/-- The per-date result map: each parseable requested date is mapped (under both
its original and normalised keys) to its resolved price, which may be null. -/
def get_prices_at_dates (bars : List (String × Val)) (dates : List String)
    (useNearest : Bool) : List (String × Option Val) :=
  let dateObjs := dates.filterMap (fun s => (parseReqDate s).map (fun dt => (s, dt)))
  dateObjs.foldl
    (fun res sd =>
      let p := getPriceForDate bars sd.1 sd.2 useNearest
      setA (setA res sd.1 p) (normalizeReqDate sd.1) p)
    []

/-! ## Metrics derivation: `analysis.calculator` and `utils.errors` -/

/-- `calculator.to_millions`. -/
def to_millions : Option ℚ → Option ℚ
  | Option.none => Option.none
  | some q => some (q / 1000000)

/-- `calculator.calculate_adjustment_ratio`: each period's share count divided
by the baseline share count, when both are present and the baseline is positive. -/
def calculate_adjustment_ratio (current_avg_sh base_avg_sh : Option ℚ) : Option ℚ :=
  match base_avg_sh, current_avg_sh with
  | some b, some c => if b > 0 then some (c / b) else Option.none
  | _, _ => Option.none

/-- `calculator.apply_adjustment`: multiply when the ratio is present, else pass through. -/
def apply_adjustment (value ratio : Option ℚ) : Option ℚ :=
  match value, ratio with
  | some v, some r => some (v * r)
  | v, _ => v

/-- Result type of `_calculate_profitability_metrics`. -/
structure ProfMetrics where
  roe : Option ℚ
  simple_roic : Option ℚ
  cf_conversion_rate : Option ℚ
deriving DecidableEq

/-- One guarded percentage ratio `a / b * 100`, null when an operand is
missing or the denominator is zero (the shape of each block of
`_calculate_profitability_metrics`). -/
def pctRatio (a b : Option ℚ) : Option ℚ :=
  match a, b with
  | some x, some y => if y ≠ 0 then some (x / y * 100) else Option.none
  | _, _ => Option.none

/-- `calculator._calculate_profitability_metrics`. -/
def _calculate_profitability_metrics (np op eq cfo : Option ℚ) : ProfMetrics :=
  { roe := pctRatio np eq,
    simple_roic := pctRatio op eq,
    cf_conversion_rate := pctRatio cfo op }

/-- Result type of `_calculate_market_metrics`. -/
structure MarketMetrics where
  per : Option ℚ
  pbr : Option ℚ
deriving DecidableEq

/-- One guarded market multiple `p / d`, null when an operand is missing or
the denominator is not strictly positive (the shape of each block of
`_calculate_market_metrics`). -/
def posRatio (p d : Option ℚ) : Option ℚ :=
  match p, d with
  | some x, some y => if y > 0 then some (x / y) else Option.none
  | _, _ => Option.none

/-- `calculator._calculate_market_metrics`: PER and PBR require a present price
and a strictly positive adjusted denominator. -/
def _calculate_market_metrics (price adjusted_eps adjusted_bps : Option ℚ) : MarketMetrics :=
  { per := posRatio price adjusted_eps,
    pbr := posRatio price adjusted_bps }

/-- `errors.DataAvailability`. -/
inductive DataAvailability where
  | sufficient
  | insufficient
  | noData
  | partialData
deriving DecidableEq

/-- The `.value` strings of `errors.DataAvailability`. -/
def DataAvailability.value : DataAvailability → String
  | .sufficient => "sufficient"
  | .insufficient => "insufficient"
  | .noData => "no_data"
  | .partialData => "partial"

/-- `errors.check_data_availability` (reads `available_years` from the metrics). -/
def check_data_availability (available_years required_years : ℕ) : DataAvailability :=
  if available_years = 0 then .noData
  else if available_years < required_years then .insufficient
  else .sufficient

/-- `errors.get_data_availability_message`. -/
def get_data_availability_message (available_years required_years : ℕ) : String :=
  if available_years = 0 then "データが取得できませんでした"
  else if available_years < required_years then
    toString required_years ++ "年分のデータが必要ですが、" ++ toString available_years ++
      "年分しか取得できませんでした"
  else toString available_years ++ "年分のデータを取得しました"

/-- `errors.validate_metrics_for_analysis`: insufficient years, or all of the
latest FCF/ROE/EPS missing, flags the result invalid with a message; the
result itself is still returned by the caller. -/
def validate_metrics_for_analysis (available_years required_years : ℕ)
    (latest_fcf latest_roe latest_eps : Option ℚ) : Bool × Option String :=
  if available_years < required_years then
    (false, some (get_data_availability_message available_years required_years))
  else if latest_fcf.isNone && latest_roe.isNone && latest_eps.isNone then
    (false, some "主要指標（FCF、ROE、EPS）のデータが不足しています")
  else (true, Option.none)

/-- Future-year filter of `calculate_metrics_flexible` (its `int()` failures are
caught, so an unparseable fiscal-year-end is kept). -/
def flexFuture (today : Date) (fy : String) : Bool :=
  if fy.length = 8 then
    match pyInt? (strSlice fy 0 4), pyInt? (strSlice fy 4 6) with
    | some yv, some mv => ymFuture today (yv, mv)
    | _, _ => false
  else if fy.length = 10 then
    match pyInt? (strSlice fy 0 4), pyInt? (strSlice fy 5 7) with
    | some yv, some mv => ymFuture today (yv, mv)
    | _, _ => false
  else false

/-- Boolean membership in a list of values. -/
def memV (v : Val) : List Val → Bool
  | [] => false
  | a :: t => if a = v then true else memV v t

/-- The year-selection loop of `calculate_metrics_flexible`: skip falsy or
already-seen fiscal-year ends, future years and invalid records; stop once the
requested number of years is collected (at least one record is always taken
once eligible). -/
def pickYears (today : Date) (limit : ℕ) : List Rec → List Val → ℕ → List Rec
  | [], _, _ => []
  | r :: rest, seen, count =>
    let fy := pyGet r "CurFYEn"
    if !fy.truthy || memV fy seen then pickYears today limit rest seen count
    else if flexFuture today (getStr r "CurFYEn") then pickYears today limit rest seen count
    else if !is_valid_financial_record r then pickYears today limit rest seen count
    else if count + 1 ≥ limit then [r]
    else r :: pickYears today limit rest (fy :: seen) (count + 1)

/-- Python `x or y` on optional rationals (`None` and `0.0` are falsy). -/
def pyOrQ (a b : Option ℚ) : Option ℚ :=
  match a with
  | some v => if v ≠ 0 then a else b
  | Option.none => b

/-- Price lookup of `calculate_metrics_flexible`: try the fiscal-year-end string
as stored, then with dashes removed; non-string keys match nothing. -/
def flexPrice (prices : List (String × Option ℚ)) (fy_end : Val) : Option ℚ :=
  if fy_end.truthy then
    match fy_end with
    | .str s => pyOrQ ((getA prices s).join) ((getA prices (s.replace "-" "")).join)
    | _ => Option.none
  else Option.none

/-- The `FinancialPeriod` label (built from string slices of the year end). -/
def financialPeriodOf (fy_end : Val) : String :=
  match fy_end with
  | .str s =>
    if s = "" then ""
    else if s.length = 8 then strSlice s 0 4 ++ "年" ++ strSlice s 4 6 ++ "月期"
    else if s.length ≥ 10 then strSlice s 0 4 ++ "年" ++ strSlice s 5 7 ++ "月期"
    else ""
  | _ => ""

/-- One period of the flexible metrics output: the extracted raw values and the
derived calculated values. -/
structure YearOut where
  fy_end : Val
  financialPeriod : String
  rCurPerType : Val
  rCurFYSt : Val
  rCurFYEn : Val
  rDiscDate : Val
  rSales : Option ℚ
  rOP : Option ℚ
  rNP : Option ℚ
  rEq : Option ℚ
  rCFO : Option ℚ
  rCFI : Option ℚ
  rEPS : Option ℚ
  rBPS : Option ℚ
  rAvgSh : Option ℚ
  rDivTotalAnn : Option ℚ
  rPayoutRatioAnn : Option ℚ
  rCashEq : Option ℚ
  rDivAnn : Option ℚ
  rNxFDivAnn : Option ℚ
  cSales : Option ℚ
  cOP : Option ℚ
  cNP : Option ℚ
  cEq : Option ℚ
  cCFO : Option ℚ
  cCFI : Option ℚ
  cCashEq : Option ℚ
  cPayout : Option ℚ
  cCFC : Option ℚ
  cROE : Option ℚ
  cSimpleROIC : Option ℚ
  cCFCVR : Option ℚ
  cAdjRatio : Option ℚ
  cAdjEPS : Option ℚ
  cAdjBPS : Option ℚ
  cPrice : Option ℚ
  cPER : Option ℚ
  cPBR : Option ℚ
deriving DecidableEq, Inhabited

/-- The per-period body of `calculate_metrics_flexible`: raw extraction,
million-unit conversion, profitability, split adjustment against the baseline
share count, price lookup and market metrics. -/
def yearOut (prices : List (String × Option ℚ)) (latest_avg_sh : Option ℚ) (r : Rec) : YearOut :=
  let fy_end := pyGet r "CurFYEn"
  let rSales := to_float (pyGet r "Sales")
  let rOP := to_float (pyGet r "OP")
  let rNP := to_float (pyGet r "NP")
  let rEq := to_float (pyGet r "Eq")
  let rCFO := to_float (pyGet r "CFO")
  let rCFI := to_float (pyGet r "CFI")
  let rEPS := to_float (pyGet r "EPS")
  let rBPS := to_float (pyGet r "BPS")
  let rAvgSh := to_float (pyGet r "AvgSh")
  let rPayout := to_float (pyGet r "PayoutRatioAnn")
  let rCashEq := pyOrQ (pyOrQ (to_float (pyGet r "CashAndCashEquivalents"))
    (to_float (pyGet r "CashEq"))) (to_float (pyGet r "Cash"))
  let cSales := to_millions rSales
  let cOP := to_millions rOP
  let cNP := to_millions rNP
  let cEq := to_millions rEq
  let cCFO := to_millions rCFO
  let cCFI := to_millions rCFI
  let cCFC : Option ℚ :=
    match rCFO, rCFI with
    | some a, some b => some (a / 1000000 + b / 1000000)
    | _, _ => Option.none
  let prof := _calculate_profitability_metrics cNP cOP cEq cCFO
  let ratio := calculate_adjustment_ratio rAvgSh latest_avg_sh
  let adjEPS := apply_adjustment rEPS ratio
  let adjBPS := apply_adjustment rBPS ratio
  let price := flexPrice prices fy_end
  let mkt := _calculate_market_metrics price adjEPS adjBPS
  { fy_end := fy_end,
    financialPeriod := financialPeriodOf fy_end,
    rCurPerType := pyGetD r "CurPerType" (.str ""),
    rCurFYSt := pyGetD r "CurFYSt" (.str ""),
    rCurFYEn := fy_end,
    rDiscDate := pyGetD r "DiscDate" (.str ""),
    rSales := rSales, rOP := rOP, rNP := rNP, rEq := rEq,
    rCFO := rCFO, rCFI := rCFI, rEPS := rEPS, rBPS := rBPS,
    rAvgSh := rAvgSh,
    rDivTotalAnn := to_float (pyGet r "DivTotalAnn"),
    rPayoutRatioAnn := rPayout,
    rCashEq := rCashEq,
    rDivAnn := to_float (pyGet r "DivAnn"),
    rNxFDivAnn := to_float (pyGet r "NxFDivAnn"),
    cSales := cSales, cOP := cOP, cNP := cNP, cEq := cEq,
    cCFO := cCFO, cCFI := cCFI,
    cCashEq := to_millions rCashEq,
    cPayout := (match rPayout with
      | some q => some (q * 100)
      | Option.none => Option.none),
    cCFC := cCFC,
    cROE := prof.roe, cSimpleROIC := prof.simple_roic, cCFCVR := prof.cf_conversion_rate,
    cAdjRatio := ratio, cAdjEPS := adjEPS, cAdjBPS := adjBPS,
    cPrice := price, cPER := mkt.per, cPBR := mkt.pbr }

/-- The assembled output of `calculate_metrics_flexible`. -/
structure FlexOut where
  code : Val
  latest_fy_end : Val
  analysis_years : ℕ
  available_years : ℕ
  years : List YearOut
  latest_fcf : Option ℚ
  latest_roe : Option ℚ
  latest_eps : Option ℚ
  latest_per : Option ℚ
  latest_pbr : Option ℚ
  latest_sales : Option ℚ
  data_availability : String
  data_availability_message : String
  data_valid : Bool
  validation_message : Option String
deriving DecidableEq, Inhabited

/-- `calculator.calculate_metrics_flexible` with the process clock injected and
the year window supplied by the caller; `Option.none` models the empty-dict
returns.  The baseline share count is the first selected (most recent)
period's `AvgSh`. -/
def calculate_metrics_flexible (today : Date) (annual_data : List Rec)
    (prices : List (String × Option ℚ)) (analysis_years : ℕ) : Option FlexOut :=
  if annual_data = [] then Option.none
  else
    match pickYears today analysis_years annual_data [] 0 with
    | [] => Option.none
    | latest :: restY =>
      let latest_avg_sh := to_float (pyGet latest "AvgSh")
      let years_metrics := (latest :: restY).map (yearOut prices latest_avg_sh)
      let lm := yearOut prices latest_avg_sh latest
      let av := restY.length + 1
      let vres := validate_metrics_for_analysis av (min 2 analysis_years) lm.cCFC lm.cROE lm.cAdjEPS
      some
        { code := pyGet latest "Code",
          latest_fy_end := pyGet latest "CurFYEn",
          analysis_years := av,
          available_years := av,
          years := years_metrics,
          latest_fcf := lm.cCFC,
          latest_roe := lm.cROE,
          latest_eps := lm.cAdjEPS,
          latest_per := lm.cPER,
          latest_pbr := lm.cPBR,
          latest_sales := lm.cSales,
          data_availability := (check_data_availability av analysis_years).value,
          data_availability_message := get_data_availability_message av analysis_years,
          data_valid := vres.1,
          validation_message := vres.2 }

/-! ## Quarterly reconciliation: `financial_data.extract_quarterly_data` -/

/-- Quarter number of a period-type string (`"1Q"`/`"Q1"` .. `"4Q"`/`"Q4"`). -/
def quarterNum (pt : String) : Option ℕ :=
  if pt = "1Q" || pt = "Q1" then some 1
  else if pt = "2Q" || pt = "Q2" then some 2
  else if pt = "3Q" || pt = "Q3" then some 3
  else if pt = "4Q" || pt = "Q4" then some 4
  else Option.none

/-- `financial_data._calculate_quarter_end_date`: the true quarter end computed
from the fiscal-year end and the quarter number, for year ends in March, June,
September and December (other months fall back to the year end itself); any
parse or `datetime` failure yields `Option.none`. -/
def _calculate_quarter_end_date (fy_end per_type : String) : Option String :=
  let ymd? : Option (ℤ × ℤ × ℤ) :=
    if fy_end.length = 8 then
      match pyInt? (strSlice fy_end 0 4), pyInt? (strSlice fy_end 4 6),
          pyInt? (strSlice fy_end 6 8) with
      | some a, some b, some c => some (a, b, c)
      | _, _, _ => Option.none
    else if fy_end.length = 10 then
      match pyInt? (strSlice fy_end 0 4), pyInt? (strSlice fy_end 5 7),
          pyInt? (strSlice fy_end 8 10) with
      | some a, some b, some c => some (a, b, c)
      | _, _, _ => Option.none
    else Option.none
  match ymd? with
  | Option.none => Option.none
  | some (fy, fm, fd) =>
    match quarterNum per_type with
    | Option.none => Option.none
    | some qn =>
      let dt? : Option Date :=
        if qn = 4 then mkDate? fy fm fd
        else if fm = 3 then
          if qn = 1 then mkDate? (fy - 1) 6 30
          else if qn = 2 then mkDate? (fy - 1) 9 30
          else mkDate? (fy - 1) 12 31
        else if fm = 12 then
          if qn = 1 then mkDate? fy 3 31
          else if qn = 2 then mkDate? fy 6 30
          else mkDate? fy 9 30
        else if fm = 6 then
          if qn = 1 then mkDate? (fy - 1) 9 30
          else if qn = 2 then mkDate? (fy - 1) 12 31
          else mkDate? fy 3 31
        else if fm = 9 then
          if qn = 1 then mkDate? (fy - 1) 12 31
          else if qn = 2 then mkDate? fy 3 31
          else mkDate? fy 6 30
        else mkDate? fy fm fd
      dt?.map fmt10

/-- `float(v)` inside `subtract_values` (applied after the `None`-to-0 branch). -/
def valToFloat? : Val → Option PyFloat
  | .num q => some (.fin q)
  | .nan => some .nan
  | .str s => pyFloat? s
  | .none => Option.none

/-- Subtraction on parsed floats: a zero difference becomes `None`; NaN
propagates (infinities collapse onto the NaN marker, outside claim scope). -/
def subFloat : PyFloat → PyFloat → Val
  | .fin a, .fin b => if a - b ≠ 0 then .num (a - b) else Val.none
  | _, _ => Val.nan

/-- `subtract_values` of the 4Q synthesis: `FY − 3Q` per field, with `None`
read as 0 and parse failures yielding `None`. -/
def subtract_values (fy_val q3_val : Val) : Val :=
  match (if fy_val = Val.none then some (PyFloat.fin 0) else valToFloat? fy_val),
      (if q3_val = Val.none then some (PyFloat.fin 0) else valToFloat? q3_val) with
  | some a, some b => subFloat a b
  | _, _ => Val.none

/-- The 3Q-by-fiscal-year map (later records overwrite earlier ones). -/
def q3ByFy (l : List Rec) : List (Val × Rec) :=
  l.foldl
    (fun acc r =>
      if pyGet r "CurPerType" = Val.str "3Q" then
        let fy := pyGetD r "CurFYEn" (.str "")
        if fy.truthy then updateK acc fy r else acc
      else acc)
    []

/-- Synthesis of one 4Q record from an FY record: copy, retag as `"4Q"`, and
when a matching 3Q exists subtract the cumulative fields (balance-sheet
figures keep the FY value). -/
def mkQ4 (q3m : List (Val × Rec)) (fy_rec : Rec) : Option Rec :=
  let fy_end := pyGetD fy_rec "CurFYEn" (.str "")
  if fy_end.truthy then
    let q4a := setV fy_rec "CurPerType" (.str "4Q")
    some
      (match lookupK q3m fy_end with
       | Option.none => q4a
       | some q3r =>
         let s1 := setV q4a "Sales" (subtract_values (pyGet fy_rec "Sales") (pyGet q3r "Sales"))
         let s2 := setV s1 "OP" (subtract_values (pyGet fy_rec "OP") (pyGet q3r "OP"))
         let s3 := setV s2 "NP" (subtract_values (pyGet fy_rec "NP") (pyGet q3r "NP"))
         let s4 := setV s3 "Eq" (pyGet fy_rec "Eq")
         let s5 := setV s4 "EPS" (subtract_values (pyGet fy_rec "EPS") (pyGet q3r "EPS"))
         let s6 := setV s5 "BPS" (pyGet fy_rec "BPS")
         let s7 := setV s6 "CFO" (subtract_values (pyGet fy_rec "CFO") (pyGet q3r "CFO"))
         setV s7 "CFI" (subtract_values (pyGet fy_rec "CFI") (pyGet q3r "CFI")))
  else Option.none

/-- All synthesized 4Q records, appended to the working list. -/
def synthQ4s (l : List Rec) : List Rec :=
  (l.filter (fun r => pyGet r "CurPerType" = Val.str "FY")).filterMap (mkQ4 (q3ByFy l))

/-- Membership in the quarterly period-type list. -/
def isQuarterType (pt : String) : Bool :=
  pt = "1Q" || pt = "2Q" || pt = "3Q" || pt = "4Q" ||
  pt = "Q1" || pt = "Q2" || pt = "Q3" || pt = "Q4"

/-- One pass of the quarterly filter loop: type filter, quarter-end computation
and stamping, future exclusion, validity filter.  A record whose fiscal-year
end is falsy is dropped. -/
def quarterlyStep (today : Date) (r : Rec) : Option Rec :=
  match pyGetD r "CurPerType" (.str "") with
  | .str pt =>
    if !isQuarterType pt then Option.none
    else
      let fy := getStr r "CurFYEn"
      if fy = "" then Option.none
      else
        match _calculate_quarter_end_date fy pt with
        | some q =>
          let r' := setV r "_quarter_end_date" (.str q)
          if ymFuture today (sliceInt q 0 4, sliceInt q 5 7) then Option.none
          else if is_valid_financial_record r' then some r' else Option.none
        | Option.none => if is_valid_financial_record r then some r else Option.none
  | _ => Option.none

/-- The `_quarter_end_date` sort key with dict-get default `""`. -/
def qendKey (r : Rec) : Val := pyGetD r "_quarter_end_date" (.str "")

/-- The normalised `DiscDate` ascending sort key (8-digit dates re-punctuated). -/
def normDiscKey (r : Rec) : Val :=
  match pyGetD r "DiscDate" (.str "") with
  | .str s =>
    if s ≠ "" && s.length = 8 then
      .str (strSlice s 0 4 ++ "-" ++ strSlice s 4 6 ++ "-" ++ strSlice s 6 8)
    else .str s
  | v => v

/-- Ascending `(quarter end, normalised DiscDate)` comparison. -/
def ascLeQ (a b : Rec) : Bool :=
  valPairLe (qendKey a, normDiscKey a) (qendKey b, normDiscKey b)

/-- Descending `(quarter end, DiscDate)` comparison (`reverse=True`, stable). -/
def descLeQ (a b : Rec) : Bool :=
  valPairLe (qendKey b, discKey b) (qendKey a, discKey a)

/-- Merge key of the quarterly reconciliation: the stamped quarter end when
truthy, else the fiscal-year end, paired with the raw period type. -/
def quarterlyKey (r : Rec) : Option (Val × Val) :=
  let q := pyGetD r "_quarter_end_date" (.str "")
  let pt := pyGetD r "CurPerType" (.str "")
  if q.truthy then some (q, pt)
  else
    let fy := pyGetD r "CurFYEn" (.str "")
    if fy.truthy then some (fy, pt) else Option.none

/-- `financial_data.extract_quarterly_data` with the process clock injected:
4Q synthesis, filter, ascending sort, keyed merge, descending sort, window cap. -/
def extract_quarterly_data (today : Date) (l : List Rec) (quarters : ℕ) : List Rec :=
  let withQ4 := l ++ synthQ4s l
  let quarterly_records := withQ4.filterMap (quarterlyStep today)
  let sorted := insSort ascLeQ quarterly_records
  let merged := mergeValsG quarterlyKey sorted
  let uniq := insSort descLeQ merged
  uniq.take quarters

/-! ## Concrete example inputs used by witnesses and counterexamples -/

/-- Injected process clock for the examples. -/
def exToday : Date := ⟨2025, 6, 1⟩

/-- Most recent period of the split-adjustment example: baseline shares 1,000,000. -/
def exRecLatest : Rec :=
  [("Code", .str "67580"), ("CurPerType", .str "FY"), ("CurFYEn", .str "2024-03-31"),
   ("DiscDate", .str "2024-05-10"), ("Sales", .num 9000000000),
   ("AvgSh", .num 1000000), ("EPS", .num 100)]

/-- Historical period of the split-adjustment example:
500,000 average shares and raw EPS 200. -/
def exRecOld : Rec :=
  [("CurPerType", .str "FY"), ("CurFYEn", .str "2023-03-31"),
   ("DiscDate", .str "2023-05-10"), ("Sales", .num 8500000000),
   ("AvgSh", .num 500000), ("EPS", .num 200)]

/-- A record valid only through its date pair (no financial figures at all). -/
def exRecDatesOnly : Rec :=
  [("CurPerType", .str "FY"), ("CurFYEn", .str "2023-03-31"),
   ("DiscDate", .str "2023-05-10")]

/-- Earlier-disclosed revision-merge record with `Sales = 100`. -/
def exRecEarly : Rec :=
  [("CurPerType", .str "FY"), ("CurFYEn", .str "2023-03-31"),
   ("DiscDate", .str "2023-05-10"), ("Sales", .num 100)]

/-- Later-disclosed revision with a null `Sales` (valid through its dates). -/
def exRecLateNull : Rec :=
  [("CurPerType", .str "FY"), ("CurFYEn", .str "2023-03-31"),
   ("DiscDate", .str "2023-06-10"), ("Sales", Val.none)]

/-- Later-disclosed revision with `Sales = 120`. -/
def exRecLate120 : Rec :=
  [("CurPerType", .str "FY"), ("CurFYEn", .str "2023-03-31"),
   ("DiscDate", .str "2023-06-10"), ("Sales", .num 120)]

/-- Later-disclosed revision with `Sales = 0` (valid through its dates). -/
def exRecLateZero : Rec :=
  [("CurPerType", .str "FY"), ("CurFYEn", .str "2023-03-31"),
   ("DiscDate", .str "2023-06-10"), ("Sales", .num 0)]

/-- An invalid record (no figures, no disclosure date) whose fiscal-year end
has the unparsed length 9 and names a future month. -/
def exRecWeirdLen : Rec :=
  [("CurPerType", .str "FY"), ("CurFYEn", .str "2030-3-31")]

/-- A record whose disclosure date lies strictly after the injected clock. -/
def exRecDiscFuture : Rec :=
  [("CurPerType", .str "FY"), ("CurFYEn", .str "2023-03-31"),
   ("DiscDate", .str "2026-01-15"), ("Sales", .num 100)]

/-- A record whose fiscal-year end names a future month. -/
def exRecFyFuture : Rec :=
  [("CurPerType", .str "FY"), ("CurFYEn", .str "2026-03-31"),
   ("DiscDate", .str "2025-01-15"), ("Sales", .num 100)]

/-- Price bars holding a single close on Friday 2024-04-05. -/
def exBars : List (String × Val) := [("2024-04-05", .num 123)]

/-- The flexible-metrics output on the dates-only record. -/
def exC8Out : Option FlexOut := calculate_metrics_flexible exToday [exRecDatesOnly] [] 1

/-- The flexible-metrics output on the split-adjustment example. -/
def exC1Out : Option FlexOut := calculate_metrics_flexible exToday [exRecLatest, exRecOld] [] 3

/-- A mixed quarterly input: an FY record with its 3Q (driving 4Q synthesis),
a stray 1Q, and an 8-digit revision of a 4Q record. -/
def exQIn : List Rec :=
  [[("CurPerType", Val.str "FY"), ("CurFYEn", Val.str "2024-03-31"),
    ("DiscDate", Val.str "2024-05-10"), ("Sales", Val.num 100)],
   [("CurPerType", Val.str "3Q"), ("CurFYEn", Val.str "2024-03-31"),
    ("DiscDate", Val.str "2024-02-10"), ("Sales", Val.num 70)],
   [("CurPerType", Val.str "1Q"), ("CurFYEn", Val.str "2024-03-31"),
    ("DiscDate", Val.str "2023-08-10"), ("Sales", Val.num 20)],
   [("CurPerType", Val.str "4Q"), ("CurFYEn", Val.str "20231231"),
    ("DiscDate", Val.str "20240120"), ("Sales", Val.num 55)]]

/-! # Theorems

Basic facts about records, then the claim theorems, interleaved with the
lemmas they need. -/

theorem getV_none_not_mem {r : Rec} {k : String} (h : getV r k = Option.none) :
    ∀ p ∈ r, p.1 ≠ k := by
  induction r with
  | nil => intro p hp; cases hp
  | cons a t ih =>
    obtain ⟨a1, a2⟩ := a
    simp only [getV] at h
    by_cases hk : a1 = k
    · rw [if_pos hk] at h
      exact absurd h (by simp)
    · rw [if_neg hk] at h
      intro p hp
      rcases List.mem_cons.mp hp with rfl | hp
      · exact hk
      · exact ih h p hp

theorem getV_setV_self (r : Rec) (k : String) (v : Val) : getV (setV r k v) k = some v := by
  induction r with
  | nil => simp [setV, getV]
  | cons a t ih =>
    obtain ⟨a1, a2⟩ := a
    by_cases hk : a1 = k
    · simp [setV, getV, hk]
    · simp [setV, getV, hk, ih]

theorem getV_setV_ne (r : Rec) {k k' : String} (v : Val) (h : k ≠ k') :
    getV (setV r k v) k' = getV r k' := by
  induction r with
  | nil => simp [setV, getV, h]
  | cons a t ih =>
    obtain ⟨a1, a2⟩ := a
    by_cases hk : a1 = k
    · subst hk
      simp [setV, getV, h]
    · by_cases ha : a1 = k'
      · subst ha
        simp [setV, getV, hk]
      · simp [setV, getV, hk, ha, ih]

theorem pyGet_setV_self (r : Rec) (k : String) (v : Val) : pyGet (setV r k v) k = v := by
  simp [pyGet, getV_setV_self]

theorem pyGet_setV_ne (r : Rec) {k k' : String} (v : Val) (h : k ≠ k') :
    pyGet (setV r k v) k' = pyGet r k' := by
  simp [pyGet, getV_setV_ne r v h]

theorem getV_eq_none_iff {r : Rec} {k : String} :
    getV r k = Option.none ↔ ∀ p ∈ r, p.1 ≠ k := by
  constructor
  · exact getV_none_not_mem
  · intro h
    induction r with
    | nil => rfl
    | cons a t ih =>
      obtain ⟨a1, a2⟩ := a
      have h1 : a1 ≠ k := h (a1, a2) (List.mem_cons_self _ _)
      simp only [getV, if_neg h1]
      exact ih (fun p hp => h p (List.mem_cons_of_mem _ hp))

theorem mergeItems_get_not_mem (l : List (String × Val)) (acc : Rec) (f : String)
    (h : ∀ p ∈ l, p.1 ≠ f) :
    getV (l.foldl (fun acc kv => if overwriteGuard kv.2 then setV acc kv.1 kv.2 else acc) acc) f =
      getV acc f := by
  induction l generalizing acc with
  | nil => rfl
  | cons a t ih =>
    simp only [List.foldl_cons]
    rw [ih _ (fun p hp => h p (List.mem_cons_of_mem a hp))]
    by_cases hg : overwriteGuard a.2
    · rw [if_pos hg, getV_setV_ne _ _ (h a (List.mem_cons_self a t))]
    · rw [if_neg hg]

theorem mergeItems_get (l : List (String × Val)) (acc : Rec) (f : String)
    (hnd : (l.map Prod.fst).Nodup) :
    getV (l.foldl (fun acc kv => if overwriteGuard kv.2 then setV acc kv.1 kv.2 else acc) acc) f =
      (match getV l f with
       | some v => if overwriteGuard v then some v else getV acc f
       | Option.none => getV acc f) := by
  induction l generalizing acc with
  | nil => rfl
  | cons a t ih =>
    obtain ⟨a1, a2⟩ := a
    simp only [List.map_cons, List.nodup_cons] at hnd
    obtain ⟨ha1, hndt⟩ := hnd
    by_cases haf : a1 = f
    · have htf : getV t f = Option.none :=
        getV_eq_none_iff.mpr
          (fun p hp hpf => ha1 (by rw [haf, ← hpf]; exact List.mem_map_of_mem Prod.fst hp))
      have hnm := getV_none_not_mem htf
      by_cases hg : overwriteGuard a2 <;>
        simp [List.foldl_cons, getV, haf, hg, mergeItems_get_not_mem t _ f hnm, getV_setV_self]
    · simp only [List.foldl_cons, getV, if_neg haf]
      rw [ih _ hndt]
      by_cases hg : overwriteGuard a2
      · simp only [if_pos hg, getV_setV_ne _ _ haf]
      · simp only [if_neg hg]

theorem mergeTwo_disc (ex r : Rec) :
    pyGet (mergeTwo ex r) "DiscDate" =
      (match getV r "DiscDate" with
       | some v => v
       | Option.none => pyGet ex "DiscDate") := by
  unfold mergeTwo
  cases hd : getV r "DiscDate" with
  | some v => simp [pyGet, getV_setV_self, hd]
  | none =>
    simp only [pyGet, getV_setV_self, hd, Option.getD_some]
    rw [mergeItems_get_not_mem r ex "DiscDate" (getV_none_not_mem hd)]

theorem mergeTwo_field (ex r : Rec) {f : String} (hf : f ≠ "DiscDate")
    (hnd : (r.map Prod.fst).Nodup) :
    pyGet (mergeTwo ex r) f =
      (match getV r f with
       | some v => if overwriteGuard v then v else pyGet ex f
       | Option.none => pyGet ex f) := by
  unfold mergeTwo
  rw [pyGet, getV_setV_ne _ _ (Ne.symm hf), mergeItems_get r ex f hnd]
  cases getV r f with
  | some v =>
    by_cases hg : overwriteGuard v
    · simp [hg]
    · simp [hg, pyGet]
  | none => simp [pyGet]

theorem mem_keys_setV {r : Rec} {k x : String} (v : Val)
    (h : x ∈ (setV r k v).map Prod.fst) : x ∈ r.map Prod.fst ∨ x = k := by
  induction r with
  | nil =>
    simp only [setV, List.map_cons, List.map_nil, List.mem_singleton] at h
    exact Or.inr h
  | cons a t ih =>
    obtain ⟨a1, a2⟩ := a
    by_cases hk : a1 = k
    · simp only [setV, if_pos hk, List.map_cons, List.mem_cons] at h
      rcases h with rfl | h
      · exact Or.inl (List.mem_cons_self _ _)
      · exact Or.inl (List.mem_cons_of_mem _ h)
    · simp only [setV, if_neg hk, List.map_cons, List.mem_cons] at h
      rcases h with rfl | h
      · exact Or.inl (List.mem_cons_self _ _)
      · rcases ih h with h' | h'
        · exact Or.inl (List.mem_cons_of_mem _ h')
        · exact Or.inr h'

theorem setV_keys_nodup {r : Rec} (k : String) (v : Val) (h : (r.map Prod.fst).Nodup) :
    ((setV r k v).map Prod.fst).Nodup := by
  induction r with
  | nil => simp [setV]
  | cons a t ih =>
    obtain ⟨a1, a2⟩ := a
    simp only [List.map_cons, List.nodup_cons] at h
    obtain ⟨ha1, hndt⟩ := h
    by_cases hk : a1 = k
    · simp only [setV, if_pos hk, List.map_cons, List.nodup_cons]
      exact ⟨ha1, hndt⟩
    · simp only [setV, if_neg hk, List.map_cons, List.nodup_cons]
      refine ⟨fun hmem => ?_, ih hndt⟩
      rcases mem_keys_setV v hmem with h' | h'
      · exact ha1 h'
      · exact hk h'

theorem mergeItems_keys_nodup (l : List (String × Val)) (acc : Rec)
    (h : (acc.map Prod.fst).Nodup) :
    (((l.foldl (fun acc kv => if overwriteGuard kv.2 then setV acc kv.1 kv.2 else acc) acc)).map
      Prod.fst).Nodup := by
  induction l generalizing acc with
  | nil => exact h
  | cons a t ih =>
    simp only [List.foldl_cons]
    by_cases hg : overwriteGuard a.2
    · rw [if_pos hg]
      exact ih _ (setV_keys_nodup a.1 a.2 h)
    · rw [if_neg hg]
      exact ih _ h

theorem mergeTwo_keys_nodup (ex r : Rec) (h : (ex.map Prod.fst).Nodup) :
    ((mergeTwo ex r).map Prod.fst).Nodup := by
  unfold mergeTwo
  exact setV_keys_nodup _ _ (mergeItems_keys_nodup r ex h)

theorem pctRatio_eq_none_iff (a b : Option ℚ) :
    pctRatio a b = Option.none ↔ a = Option.none ∨ b = Option.none ∨ b = some 0 := by
  cases a with
  | none => simp [pctRatio]
  | some x =>
    cases b with
    | none => simp [pctRatio]
    | some y => by_cases hy : y = 0 <;> simp [pctRatio, hy]

theorem posRatio_eq_none_iff (p d : Option ℚ) :
    posRatio p d = Option.none ↔
      p = Option.none ∨ d = Option.none ∨ ∃ q, d = some q ∧ q ≤ 0 := by
  cases p with
  | none => simp [posRatio]
  | some x =>
    cases d with
    | none => simp [posRatio]
    | some y =>
      by_cases hy : 0 < y
      · simp [posRatio, hy, not_le.mpr hy]
      · simp [posRatio, hy, not_lt.mp hy]

/-- C7: `isValidFinancialRecord(record)` returns true iff at least one of
Sales, operatingProfit, netProfit, equity is a valid (non-null, non-NaN,
non-zero) value, or both `periodEnd` and `disclosureDate` are present
(truthy); a zero, a null and a NaN each count as "no data", while any nonzero
number is valid. -/
theorem C7_validity_rule (r : Rec) :
    (is_valid_financial_record r = true ↔
      ((is_valid_value (pyGet r "Sales") = true ∨ is_valid_value (pyGet r "OP") = true ∨
        is_valid_value (pyGet r "NP") = true ∨ is_valid_value (pyGet r "Eq") = true) ∨
       ((pyGet r "CurFYEn").truthy = true ∧ (pyGet r "DiscDate").truthy = true))) ∧
    is_valid_value (Val.num 0) = false ∧ is_valid_value Val.none = false ∧
    is_valid_value Val.nan = false ∧
    (∀ q : ℚ, q ≠ 0 → is_valid_value (Val.num q) = true) := by
  refine ⟨?_, by decide, rfl, rfl, ?_⟩
  · simp only [is_valid_financial_record, Bool.or_eq_true, Bool.and_eq_true]
    tauto
  · intro q hq
    simp [is_valid_value, bne_iff_ne]
    exact hq

/-- C5: per-period null rules of the derived ratios: ROE is null exactly when
net profit or equity is missing or equity is zero; PER is null exactly when
the price or the adjusted EPS is missing or the adjusted EPS is nonpositive
(so a present price with negative EPS still yields null, never a negative
multiple); PBR likewise requires a strictly positive adjusted BPS. -/
theorem C5_null_safety :
    (∀ np op eq cfo : Option ℚ,
      ((_calculate_profitability_metrics np op eq cfo).roe = Option.none ↔
        (np = Option.none ∨ eq = Option.none ∨ eq = some 0))) ∧
    (∀ price aeps abps : Option ℚ,
      ((_calculate_market_metrics price aeps abps).per = Option.none ↔
        (price = Option.none ∨ aeps = Option.none ∨ ∃ q, aeps = some q ∧ q ≤ 0))) ∧
    (∀ price aeps abps : Option ℚ,
      ((_calculate_market_metrics price aeps abps).pbr = Option.none ↔
        (price = Option.none ∨ abps = Option.none ∨ ∃ q, abps = some q ∧ q ≤ 0))) := by
  refine ⟨?_, ?_, ?_⟩
  · intro np op eq cfo
    simpa [_calculate_profitability_metrics] using pctRatio_eq_none_iff np eq
  · intro price aeps abps
    simpa [_calculate_market_metrics] using posRatio_eq_none_iff price aeps
  · intro price aeps abps
    simpa [_calculate_market_metrics] using posRatio_eq_none_iff price abps

theorem getA_setA_self {α : Type} (m : List (String × α)) (k : String) (v : α) :
    getA (setA m k v) k = some v := by
  induction m with
  | nil => simp [setA, getA]
  | cons a t ih =>
    obtain ⟨a1, a2⟩ := a
    by_cases hk : a1 = k
    · simp [setA, getA, hk]
    · simp [setA, getA, hk, ih]

theorem getA_setA_ne {α : Type} (m : List (String × α)) {k k' : String} (v : α) (h : k ≠ k') :
    getA (setA m k v) k' = getA m k' := by
  induction m with
  | nil => simp [setA, getA, h]
  | cons a t ih =>
    obtain ⟨a1, a2⟩ := a
    by_cases hk : a1 = k
    · subst hk
      simp [setA, getA, h]
    · by_cases ha : a1 = k'
      · subst ha
        simp [setA, getA, hk]
      · simp [setA, getA, hk, ha, ih]

theorem walkBack_miss (bars : List (String × Val)) (ord : ℤ) (l : List ℕ)
    (h : ∀ i ∈ l, getA bars (fmt10 (fromOrd (ord - i))) = Option.none) :
    walkBack bars ord l = Option.none := by
  induction l with
  | nil => rfl
  | cons i t ih =>
    rw [walkBack, h i (List.mem_cons_self _ _)]
    exact ih (fun x hx => h x (List.mem_cons_of_mem _ hx))

theorem walkBack_append_miss (bars : List (String × Val)) (ord : ℤ) (l1 l2 : List ℕ)
    (h : ∀ i ∈ l1, getA bars (fmt10 (fromOrd (ord - i))) = Option.none) :
    walkBack bars ord (l1 ++ l2) = walkBack bars ord l2 := by
  induction l1 with
  | nil => rfl
  | cons i t ih =>
    rw [List.cons_append, walkBack, h i (List.mem_cons_self _ _)]
    exact ih (fun x hx => h x (List.mem_cons_of_mem _ hx))

/-- C6: for a requested date with no exact close in the batch map, the lookup
walks backward one calendar day at a time, up to ten days, and returns the
nearest prior close found; if no close exists within that window the date is
mapped to null (no error), also in the returned per-date map. -/
theorem C6_price_fallback (bars : List (String × Val)) (dateStr : String) (dObj : Date)
    (hexact : pyOrV (getA bars (normalizeReqDate dateStr)) (getA bars dateStr) = Option.none) :
    (∀ j : ℕ, ∀ p : Val, 1 ≤ j → j ≤ 10 →
      getA bars (fmt10 (fromOrd (toOrd dObj - j))) = some p →
      (∀ i : ℕ, 1 ≤ i → i < j → getA bars (fmt10 (fromOrd (toOrd dObj - i))) = Option.none) →
      getPriceForDate bars dateStr dObj true = some p) ∧
    ((∀ i : ℕ, 1 ≤ i → i ≤ 10 → getA bars (fmt10 (fromOrd (toOrd dObj - i))) = Option.none) →
      getPriceForDate bars dateStr dObj true = Option.none) ∧
    ((∀ i : ℕ, 1 ≤ i → i ≤ 10 → getA bars (fmt10 (fromOrd (toOrd dObj - i))) = Option.none) →
      parseReqDate dateStr = some dObj →
      getA (get_prices_at_dates bars [dateStr] true) dateStr = some Option.none) := by
  have hwalkeq : getPriceForDate bars dateStr dObj true =
      walkBack bars (toOrd dObj) (List.range' 1 10) := by
    simp only [getPriceForDate]
    rw [hexact]
    simp
  have hmiss_walk :
      (∀ i : ℕ, 1 ≤ i → i ≤ 10 → getA bars (fmt10 (fromOrd (toOrd dObj - i))) = Option.none) →
      getPriceForDate bars dateStr dObj true = Option.none := by
    intro hmiss
    rw [hwalkeq]
    refine walkBack_miss bars _ _ (fun i hi => ?_)
    rw [List.mem_range'_1] at hi
    exact hmiss i hi.1 (by omega)
  refine ⟨?_, hmiss_walk, ?_⟩
  · intro j p hj1 hj10 hhit hbefore
    rw [hwalkeq]
    have hsplit : List.range' 1 10 = List.range' 1 (j - 1) ++ List.range' j (11 - j) := by
      have h := List.range'_append 1 (j - 1) (11 - j) 1
      simp only [one_mul] at h
      rw [show 1 + (j - 1) = j by omega] at h
      rw [h, show 11 - j + (j - 1) = 10 by omega]
    rw [hsplit, walkBack_append_miss bars _ _ _ (fun i hi => by
      rw [List.mem_range'_1] at hi
      exact hbefore i hi.1 (by omega))]
    have hz : List.range' j (11 - j) = j :: List.range' (j + 1) (10 - j) := by
      rw [show 11 - j = (10 - j) + 1 by omega]
      rfl
    rw [hz, walkBack, hhit]
  · intro hmiss hparse
    have hp := hmiss_walk hmiss
    unfold get_prices_at_dates
    rw [show List.filterMap (fun s => (parseReqDate s).map (fun dt => (s, dt))) [dateStr] =
        [(dateStr, dObj)] from by simp [hparse]]
    simp only [List.foldl_cons, List.foldl_nil]
    rw [hp]
    by_cases hn : normalizeReqDate dateStr = dateStr
    · rw [hn, getA_setA_self]
    · rw [getA_setA_ne _ _ hn, getA_setA_self]

/-- C6 witness: Saturday 2024-04-06 with a single close on Friday 2024-04-05
resolves to that close via the one-day walkback; 2024-04-20, with no close in
the prior ten days, maps to null without error. -/
theorem C6_witness :
    getPriceForDate exBars "2024-04-06" ⟨2024, 4, 6⟩ true = some (Val.num 123) ∧
    getPriceForDate exBars "2024-04-20" ⟨2024, 4, 20⟩ true = Option.none ∧
    getA (get_prices_at_dates exBars ["2024-04-20"] true) "2024-04-20" = some Option.none := by
  obtain ⟨hhit, _, _⟩ := C6_price_fallback exBars "2024-04-06" ⟨2024, 4, 6⟩ (by decide)
  obtain ⟨_, hmiss, hmap⟩ := C6_price_fallback exBars "2024-04-20" ⟨2024, 4, 20⟩ (by decide)
  refine ⟨?_, ?_, ?_⟩
  · refine hhit 1 (Val.num 123) (le_refl 1) (by omega) (by decide) ?_
    intro i h1 hlt
    omega
  · refine hmiss ?_
    intro i h1 h10
    interval_cases i <;> decide
  · refine hmap ?_ (by decide)
    intro i h1 h10
    interval_cases i <;> decide

theorem calc_adj_eq (c b : Option ℚ) :
    calculate_adjustment_ratio c b =
      (match c, b with
       | some p, some bb => if bb > 0 then some (p / bb) else Option.none
       | _, _ => Option.none) := by
  cases c <;> cases b <;> rfl

theorem apply_adj_eq (v ρ : Option ℚ) :
    apply_adjustment v ρ =
      (match v, ρ with
       | some e, some rr => some (e * rr)
       | some e, Option.none => some e
       | Option.none, _ => Option.none) := by
  cases v <;> cases ρ <;> rfl

theorem yearOut_rAvgSh (p : List (String × Option ℚ)) (la : Option ℚ) (r : Rec) :
    (yearOut p la r).rAvgSh = to_float (pyGet r "AvgSh") := rfl

theorem yearOut_rEPS (p : List (String × Option ℚ)) (la : Option ℚ) (r : Rec) :
    (yearOut p la r).rEPS = to_float (pyGet r "EPS") := rfl

theorem yearOut_cAdjRatio (p : List (String × Option ℚ)) (la : Option ℚ) (r : Rec) :
    (yearOut p la r).cAdjRatio =
      calculate_adjustment_ratio (to_float (pyGet r "AvgSh")) la := rfl

theorem yearOut_cAdjEPS (p : List (String × Option ℚ)) (la : Option ℚ) (r : Rec) :
    (yearOut p la r).cAdjEPS =
      apply_adjustment (to_float (pyGet r "EPS"))
        (calculate_adjustment_ratio (to_float (pyGet r "AvgSh")) la) := rfl

/-- C1 (amended): for every period in the selected analysis window, the derived
adjustmentRatio equals periodAvgShares / baselineAvgShares — the baseline being
the most recent period's avgSharesOutstanding — and is null if either operand
is missing or the baseline is ≤ 0; adjustedEPS multiplies the raw EPS by the
ratio, passing the raw EPS through when the ratio is null. -/
theorem C1_adjustment_direction (today : Date) (annual_data : List Rec)
    (prices : List (String × Option ℚ)) (analysis_years : ℕ) (res : FlexOut) (y0 : YearOut)
    (hres : calculate_metrics_flexible today annual_data prices analysis_years = some res)
    (hy0 : res.years.head? = some y0) :
    ∀ y ∈ res.years,
      (y.cAdjRatio =
        (match y.rAvgSh, y0.rAvgSh with
         | some p, some b => if b > 0 then some (p / b) else Option.none
         | _, _ => Option.none)) ∧
      (y.cAdjEPS =
        (match y.rEPS, y.cAdjRatio with
         | some e, some ρ => some (e * ρ)
         | some e, Option.none => some e
         | Option.none, _ => Option.none)) := by
  unfold calculate_metrics_flexible at hres
  by_cases hemp : annual_data = []
  · rw [if_pos hemp] at hres
    cases hres
  rw [if_neg hemp] at hres
  cases hpick : pickYears today analysis_years annual_data [] 0 with
  | nil =>
    rw [hpick] at hres
    cases hres
  | cons latest restY =>
    rw [hpick] at hres
    cases hres
    intro y hy
    simp only at hy hy0
    rw [List.map_cons, List.head?_cons] at hy0
    cases hy0
    obtain ⟨r, hr, rfl⟩ := List.mem_map.mp hy
    exact ⟨calc_adj_eq _ _, apply_adj_eq _ _⟩

/-- C1 counterexample: on the split-adjustment example itself — baseline shares
1,000,000; a historical period with 500,000 average shares and raw EPS 200 —
the code derives adjustmentRatio 1/2 and adjustedEPS 100, not the claimed
ratio baseline/period = 2.0 and adjustedEPS 400, although both operands are
present and the baseline is positive. -/
theorem C1_counterexample :
    ((exC1Out.getD default).years.getD 1 default).rAvgSh = some (500000 : ℚ) ∧
    ((exC1Out.getD default).years.head?.getD default).rAvgSh = some (1000000 : ℚ) ∧
    ((exC1Out.getD default).years.getD 1 default).rEPS = some (200 : ℚ) ∧
    ((exC1Out.getD default).years.getD 1 default).cAdjRatio = some (1 / 2 : ℚ) ∧
    ((exC1Out.getD default).years.getD 1 default).cAdjRatio ≠
      some ((1000000 : ℚ) / 500000) ∧
    ((exC1Out.getD default).years.getD 1 default).cAdjEPS = some (100 : ℚ) ∧
    ((exC1Out.getD default).years.getD 1 default).cAdjEPS ≠ some (400 : ℚ) := by
  refine ⟨rfl, rfl, rfl, ?_, ?_, ?_, ?_⟩
  · show some ((500000 : ℚ) / 1000000) = some (1 / 2 : ℚ)
    norm_num
  · show some ((500000 : ℚ) / 1000000) ≠ some ((1000000 : ℚ) / 500000)
    norm_num
  · show some ((200 : ℚ) * ((500000 : ℚ) / 1000000)) = some (100 : ℚ)
    norm_num
  · show some ((200 : ℚ) * ((500000 : ℚ) / 1000000)) ≠ some (400 : ℚ)
    norm_num

/-- C1 witness: the amended formula applied at the example input yields
adjustmentRatio 1/2 and adjustedEPS 100 for the historical period. -/
theorem C1_witness :
    ((exC1Out.getD default).years.getD 1 default).cAdjRatio = some (1 / 2 : ℚ) ∧
    ((exC1Out.getD default).years.getD 1 default).cAdjEPS = some (100 : ℚ) := by
  have happ := C1_adjustment_direction exToday [exRecLatest, exRecOld] [] 3
    (exC1Out.getD default) ((exC1Out.getD default).years.head?.getD default) rfl rfl
  have hmem : (exC1Out.getD default).years.getD 1 default ∈ (exC1Out.getD default).years :=
    List.mem_cons_of_mem _ (List.mem_cons_self _ _)
  obtain ⟨hr, he⟩ := happ ((exC1Out.getD default).years.getD 1 default) hmem
  constructor
  · rw [hr]
    show some ((500000 : ℚ) / 1000000) = some (1 / 2 : ℚ)
    norm_num
  · rw [he, hr]
    show some ((200 : ℚ) * ((500000 : ℚ) / 1000000)) = some (100 : ℚ)
    norm_num

theorem validate_none_invalid (av req : ℕ) :
    (validate_metrics_for_analysis av req Option.none Option.none Option.none).1 = false ∧
    (validate_metrics_for_analysis av req Option.none Option.none Option.none).2.isSome = true := by
  unfold validate_metrics_for_analysis
  by_cases h : av < req <;> simp [h]

/-- C8: when the latest period's FCF, ROE and adjustedEPS are all null, the
metrics result is flagged invalid and carries an explanatory message, but it
is still returned to the caller with its per-period list intact. -/
theorem C8_invalid_still_returned (today : Date) (annual_data : List Rec)
    (prices : List (String × Option ℚ)) (analysis_years : ℕ) (res : FlexOut)
    (hres : calculate_metrics_flexible today annual_data prices analysis_years = some res)
    (h1 : res.latest_fcf = Option.none) (h2 : res.latest_roe = Option.none)
    (h3 : res.latest_eps = Option.none) :
    res.data_valid = false ∧ res.validation_message.isSome = true ∧ res.years ≠ [] := by
  unfold calculate_metrics_flexible at hres
  by_cases hemp : annual_data = []
  · rw [if_pos hemp] at hres
    cases hres
  rw [if_neg hemp] at hres
  cases hpick : pickYears today analysis_years annual_data [] 0 with
  | nil =>
    rw [hpick] at hres
    cases hres
  | cons latest restY =>
    rw [hpick] at hres
    cases hres
    simp only at h1 h2 h3 ⊢
    rw [h1, h2, h3]
    refine ⟨(validate_none_invalid _ _).1, (validate_none_invalid _ _).2, by simp⟩

/-- C8 witness: a record valid only through its dates produces a result with
all key indicators null, flagged invalid with a message, yet still carrying
its one period. -/
theorem C8_witness :
    (exC8Out.getD default).data_valid = false ∧
    ((exC8Out.getD default).validation_message).isSome = true ∧
    (exC8Out.getD default).years ≠ [] :=
  C8_invalid_still_returned exToday [exRecDatesOnly] [] 1 (exC8Out.getD default)
    rfl rfl rfl rfl

/-- C10: a numeric 0 does overwrite an existing nonzero value in the
reconciliation merge — concretely, a later-disclosed record with `Sales = 0`
replaces an earlier `Sales = 100` — because the overwrite guard only blocks
`None` and the empty string, even though 0 fails the validity filter's value
check. -/
theorem C10_zero_overwrite :
    (extract_annual_data exToday [exRecEarly, exRecLateZero] false).map
        (fun r => pyGet r "Sales") = [Val.num 0] ∧
    is_valid_value (Val.num 0) = false ∧
    (∀ v : Val, overwriteGuard v = (v != Val.none && v != Val.str "")) := by
  refine ⟨by decide, by decide, ?_⟩
  intro v
  cases v with
  | none => rfl
  | nan => rfl
  | num q => simp [overwriteGuard]
  | str s => by_cases hs : s = "" <;> simp [overwriteGuard, is_valid_value, hs]

/-- The annual filter ignores a dropped record wherever it sits in the input. -/
theorem extract_annual_erase_of_not_keep (today : Date) (include_2q : Bool) (r : Rec)
    (l1 l2 : List Rec) (h : annualKeep today include_2q r = false) :
    extract_annual_data today (l1 ++ r :: l2) include_2q =
      extract_annual_data today (l1 ++ l2) include_2q := by
  unfold extract_annual_data
  have : (l1 ++ r :: l2).filter (annualKeep today include_2q) =
      (l1 ++ l2).filter (annualKeep today include_2q) := by
    simp [List.filter_append, List.filter_cons, h]
  rw [this]

/-- C4: a record whose parseable disclosure date is strictly after the injected
now, or whose parseable fiscal-year-end (year, month) is strictly after now's
(year, month), contributes nothing to the reconciled timeline; either check
alone suffices, and no validity assumption is made. -/
theorem C4_future_exclusion (today : Date) (include_2q : Bool) (r : Rec) (l1 l2 : List Rec)
    (h : annualDiscFuture today r = true ∨
      (∃ ym, annualFyYM (getStr r "CurFYEn") = some ym ∧ ymFuture today ym = true)) :
    extract_annual_data today (l1 ++ r :: l2) include_2q =
      extract_annual_data today (l1 ++ l2) include_2q := by
  apply extract_annual_erase_of_not_keep
  unfold annualKeep
  rcases h with h | ⟨ym, hym, hfut⟩
  · simp [h]
  · have hfy : getStr r "CurFYEn" ≠ "" := by
      intro he
      rw [he] at hym
      simp [annualFyYM] at hym
    simp [hym, hfy, hfut]

theorem ordIns_perm (le : α → α → Bool) (a : α) (l : List α) :
    (ordIns le a l).Perm (a :: l) := by
  induction l with
  | nil => exact List.Perm.refl _
  | cons b t ih =>
    by_cases h : le a b
    · rw [ordIns, if_pos h]
    · rw [ordIns, if_neg h]
      exact (ih.cons b).trans (List.Perm.swap a b t)

theorem insSort_perm (le : α → α → Bool) (l : List α) : (insSort le l).Perm l := by
  induction l with
  | nil => exact List.Perm.refl _
  | cons a t ih => exact (ordIns_perm le a (insSort le t)).trans (ih.cons a)

theorem overwriteGuard_of_truthy {v : Val} (h : v.truthy = true) : overwriteGuard v = true := by
  cases v with
  | none => simp [Val.truthy] at h
  | nan => rfl
  | num q => simp [overwriteGuard]
  | str s =>
    simp only [Val.truthy, bne_iff_ne, ne_eq, decide_eq_true_eq] at h
    simp [overwriteGuard, is_valid_value, h]

theorem lookupK_mem {κ : Type} [DecidableEq κ] {acc : List (κ × Rec)} {k : κ} {ex : Rec}
    (h : lookupK acc k = some ex) : (k, ex) ∈ acc := by
  induction acc with
  | nil => cases h
  | cons a t ih =>
    obtain ⟨a1, a2⟩ := a
    simp only [lookupK] at h
    by_cases hk : a1 = k
    · rw [if_pos hk] at h
      subst hk
      cases h
      exact List.mem_cons_self _ _
    · rw [if_neg hk] at h
      exact List.mem_cons_of_mem _ (ih h)

theorem mem_updateK {κ : Type} [DecidableEq κ] {acc : List (κ × Rec)} {k : κ} {v : Rec} :
    ∀ p ∈ updateK acc k v, p ∈ acc ∨ p = (k, v) := by
  induction acc with
  | nil =>
    intro p hp
    simp only [updateK, List.mem_singleton] at hp
    exact Or.inr hp
  | cons a t ih =>
    obtain ⟨a1, a2⟩ := a
    intro p hp
    by_cases hk : a1 = k
    · rw [updateK, if_pos hk] at hp
      rcases List.mem_cons.mp hp with rfl | hp
      · exact Or.inr (by rw [hk])
      · exact Or.inl (List.mem_cons_of_mem _ hp)
    · rw [updateK, if_neg hk] at hp
      rcases List.mem_cons.mp hp with rfl | hp
      · exact Or.inl (List.mem_cons_self _ _)
      · rcases ih p hp with h' | h'
        · exact Or.inl (List.mem_cons_of_mem _ h')
        · exact Or.inr h'

theorem mem_keys_updateK_of_mem {κ : Type} [DecidableEq κ] {acc : List (κ × Rec)} {k x : κ}
    (v : Rec) (h : x ∈ acc.map Prod.fst) : x ∈ (updateK acc k v).map Prod.fst := by
  induction acc with
  | nil => cases h
  | cons a t ih =>
    obtain ⟨a1, a2⟩ := a
    by_cases hk : a1 = k
    · rw [updateK, if_pos hk]
      simpa using h
    · rw [updateK, if_neg hk]
      rcases List.mem_cons.mp h with rfl | h
      · exact List.mem_cons_self _ _
      · exact List.mem_cons_of_mem _ (ih h)

theorem mergeFold_keys_mono {κ : Type} [DecidableEq κ] (keyOf : Rec → Option κ)
    (l : List Rec) (acc : List (κ × Rec)) {k : κ} (h : k ∈ acc.map Prod.fst) :
    k ∈ (mergeFoldG keyOf acc l).map Prod.fst := by
  induction l generalizing acc with
  | nil => exact h
  | cons r rest ih =>
    cases hk : keyOf r with
    | none =>
      simp only [mergeFoldG, hk]
      exact ih acc h
    | some k' =>
      cases hl : lookupK acc k' with
      | none =>
        simp only [mergeFoldG, hk, hl]
        refine ih _ ?_
        rw [List.map_append]
        exact List.mem_append_left _ h
      | some ex =>
        simp only [mergeFoldG, hk, hl]
        exact ih _ (mem_keys_updateK_of_mem _ h)

theorem mergeFold_key_mem {κ : Type} [DecidableEq κ] (keyOf : Rec → Option κ)
    {l : List Rec} (acc : List (κ × Rec)) {r : Rec} {k : κ}
    (hr : r ∈ l) (hk : keyOf r = some k) :
    k ∈ (mergeFoldG keyOf acc l).map Prod.fst := by
  induction l generalizing acc with
  | nil => cases hr
  | cons r' rest ih =>
    rcases List.mem_cons.mp hr with rfl | hr'
    · cases hl : lookupK acc k with
      | none =>
        simp only [mergeFoldG, hk, hl]
        refine mergeFold_keys_mono keyOf rest _ ?_
        rw [List.map_append]
        exact List.mem_append_right _ (by simp)
      | some ex =>
        simp only [mergeFoldG, hk, hl]
        refine mergeFold_keys_mono keyOf rest _ ?_
        exact mem_keys_updateK_of_mem _ (List.mem_map_of_mem Prod.fst (lookupK_mem hl))
    · cases hk' : keyOf r' with
      | none =>
        simp only [mergeFoldG, hk']
        exact ih _ hr'
      | some k'' =>
        cases hl : lookupK acc k'' with
        | none =>
          simp only [mergeFoldG, hk', hl]
          exact ih _ hr'
        | some ex =>
          simp only [mergeFoldG, hk', hl]
          exact ih _ hr'

theorem mergeFold_inv {κ : Type} [DecidableEq κ] (keyOf : Rec → Option κ)
    (R : Rec → Prop) (P : κ → Rec → Prop)
    (hseed : ∀ r k, R r → keyOf r = some k → P k r)
    (hpres : ∀ k ex r, P k ex → R r → keyOf r = some k → P k (mergeTwo ex r))
    (l : List Rec) (acc : List (κ × Rec))
    (hacc : ∀ p ∈ acc, P p.1 p.2)
    (hl : ∀ r ∈ l, R r) :
    ∀ p ∈ mergeFoldG keyOf acc l, P p.1 p.2 := by
  induction l generalizing acc with
  | nil => exact hacc
  | cons r rest ih =>
    have hRr := hl r (List.mem_cons_self _ _)
    have hrest : ∀ x ∈ rest, R x := fun x hx => hl x (List.mem_cons_of_mem _ hx)
    cases hk : keyOf r with
    | none =>
      simp only [mergeFoldG, hk]
      exact ih acc hacc hrest
    | some k =>
      cases hlk : lookupK acc k with
      | none =>
        simp only [mergeFoldG, hk, hlk]
        refine ih _ ?_ hrest
        intro p hp
        rcases List.mem_append.mp hp with hp | hp
        · exact hacc p hp
        · rcases List.mem_singleton.mp hp with rfl
          exact hseed r k hRr hk
      | some ex =>
        simp only [mergeFoldG, hk, hlk]
        refine ih _ ?_ hrest
        intro p hp
        rcases mem_updateK p hp with hp' | hp'
        · exact hacc p hp'
        · rcases hp'
          exact hpres k ex r (hacc (k, ex) (lookupK_mem hlk)) hRr hk

theorem annualKey_eq_some {r : Rec} {k : Val} (h : annualKey r = some k) :
    pyGet r "CurFYEn" = k ∧ k.truthy = true := by
  unfold annualKey at h
  by_cases ht : (pyGet r "CurFYEn").truthy
  · rw [if_pos ht] at h
    cases h
    exact ⟨rfl, ht⟩
  · rw [if_neg ht] at h
    cases h

theorem getV_of_pyGet_truthy {r : Rec} {k : String} {v : Val} (h : pyGet r k = v)
    (ht : v.truthy = true) : getV r k = some v := by
  unfold pyGet at h
  cases hgv : getV r k with
  | none =>
    rw [hgv] at h
    cases h
    simp [Val.truthy] at ht
  | some w =>
    rw [hgv] at h
    cases h
    rfl

theorem getStr_ne_empty {r : Rec} {k : String} (h : getStr r k ≠ "") :
    ∃ s, s ≠ "" ∧ getV r k = some (Val.str s) := by
  unfold getStr pyGetD at h
  cases hgv : getV r k with
  | none =>
    rw [hgv] at h
    simp at h
  | some v =>
    rw [hgv] at h
    cases v with
    | str s => exact ⟨s, by simpa using h, rfl⟩
    | none => simp at h
    | nan => simp at h
    | num q => simp at h

/-- C9: an annual record whose fiscal-year-end string has a length other than
8 or 10 is kept immediately — bypassing both the future-period exclusion and
the record-validity filter — and its key then appears in the reconciled
timeline. -/
theorem C9_weirdlen_bypass (today : Date) (include_2q : Bool) (r : Rec) (l1 l2 : List Rec)
    (h1 : annualTypeOK include_2q r = true) (h2 : annualDiscFuture today r = false)
    (h3 : getStr r "CurFYEn" ≠ "") (h4 : annualFyYM (getStr r "CurFYEn") = Option.none)
    (hnd : ∀ rec ∈ l1 ++ r :: l2, (rec.map Prod.fst).Nodup) :
    annualKeep today include_2q r = true ∧
    ∃ m ∈ extract_annual_data today (l1 ++ r :: l2) include_2q,
      pyGet m "CurFYEn" = pyGet r "CurFYEn" := by
  have hkeep : annualKeep today include_2q r = true := by
    simp [annualKeep, h1, h2, h3, h4]
  refine ⟨hkeep, ?_⟩
  obtain ⟨s, hs, hget⟩ := getStr_ne_empty h3
  have hpy : pyGet r "CurFYEn" = Val.str s := by simp [pyGet, hget]
  have htru : (Val.str s).truthy = true := by
    simp only [Val.truthy, bne_iff_ne, ne_eq, decide_eq_true_eq]
    exact hs
  have hkey : annualKey r = some (Val.str s) := by simp [annualKey, hpy, htru]
  have hrin : r ∈ l1 ++ r :: l2 := List.mem_append_right _ (List.mem_cons_self _ _)
  have hrmem : r ∈ (l1 ++ r :: l2).filter (annualKeep today include_2q) :=
    List.mem_filter.mpr ⟨hrin, hkeep⟩
  have hsortmem : r ∈ insSort ascLeA ((l1 ++ r :: l2).filter (annualKeep today include_2q)) :=
    ((insSort_perm ascLeA _).mem_iff).mpr hrmem
  have hndsorted : ∀ rec ∈ insSort ascLeA ((l1 ++ r :: l2).filter (annualKeep today include_2q)),
      (rec.map Prod.fst).Nodup := by
    intro rec hmem
    have : rec ∈ (l1 ++ r :: l2).filter (annualKeep today include_2q) :=
      ((insSort_perm ascLeA _).mem_iff).mp hmem
    exact hnd rec (List.mem_of_mem_filter this)
  have hkm := mergeFold_key_mem annualKey ([] : List (Val × Rec)) hsortmem hkey
  obtain ⟨p, hpmem, hp1⟩ := List.mem_map.mp hkm
  have hinv := mergeFold_inv annualKey (fun rec => (rec.map Prod.fst).Nodup)
    (fun k rec => pyGet rec "CurFYEn" = k)
    (fun rr kk _ hk => (annualKey_eq_some hk).1)
    (fun kk ex rr hex hR hk => by
      obtain ⟨hpyr, htr⟩ := annualKey_eq_some hk
      have hgv : getV rr "CurFYEn" = some kk := getV_of_pyGet_truthy hpyr htr
      rw [mergeTwo_field ex rr (by decide) hR, hgv]
      simp [overwriteGuard_of_truthy htr])
    _ [] (by intro p hp; cases hp) hndsorted
  refine ⟨p.2, ?_, ?_⟩
  · unfold extract_annual_data
    refine ((insSort_perm descLeA _).mem_iff).mpr ?_
    exact List.mem_map_of_mem Prod.snd hpmem
  · rw [hinv p hpmem, hp1, hpy]

/-- C9 witness: the invalid record with the 9-character future fiscal-year end
`"2030-3-31"` passes the filter and reaches the timeline. -/
theorem C9_witness :
    annualKeep exToday false exRecWeirdLen = true ∧
    is_valid_financial_record exRecWeirdLen = false ∧
    ∃ m ∈ extract_annual_data exToday [exRecWeirdLen] false,
      pyGet m "CurFYEn" = pyGet exRecWeirdLen "CurFYEn" := by
  obtain ⟨ha, hb⟩ := C9_weirdlen_bypass exToday false exRecWeirdLen [] []
    (by decide) (by decide) (by decide) (by decide) (by decide)
  exact ⟨ha, by decide, hb⟩

/-- C2: merging two raw records that share a truthy `periodEnd`, with the
second disclosed no earlier than the first, yields one reconciled record
whose `disclosureDate` is the later record's, which keeps the earlier value
on every field the later record leaves null or empty, and takes the later
value on every field the later record fills. -/
theorem C2_revision_merge (today : Date) (include_2q : Bool) (r1 r2 : Rec) (k d1 d2 : String)
    (hk : k ≠ "")
    (h1 : getV r1 "CurFYEn" = some (Val.str k)) (h2 : getV r2 "CurFYEn" = some (Val.str k))
    (hd1 : getV r1 "DiscDate" = some (Val.str d1)) (hd2 : getV r2 "DiscDate" = some (Val.str d2))
    (hle : valLe (Val.str d1) (Val.str d2) = true)
    (k1 : annualKeep today include_2q r1 = true) (k2 : annualKeep today include_2q r2 = true)
    (hnd2 : (r2.map Prod.fst).Nodup) :
    ∃ m, extract_annual_data today [r1, r2] include_2q = [m] ∧
      pyGet m "DiscDate" = Val.str d2 ∧
      (∀ f, f ≠ "DiscDate" → (pyGet r2 f = Val.none ∨ pyGet r2 f = Val.str "") →
        pyGet m f = pyGet r1 f) ∧
      (∀ f v, f ≠ "DiscDate" → getV r2 f = some v → v ≠ Val.none → v ≠ Val.str "" →
        pyGet m f = v) := by
  have hpy1 : pyGet r1 "CurFYEn" = Val.str k := by simp [pyGet, h1]
  have hpy2 : pyGet r2 "CurFYEn" = Val.str k := by simp [pyGet, h2]
  have htru : (Val.str k).truthy = true := by
    simp only [Val.truthy, bne_iff_ne, ne_eq, decide_eq_true_eq]
    exact hk
  have hfil : (([r1, r2] : List Rec)).filter (annualKeep today include_2q) = [r1, r2] := by
    simp [List.filter, k1, k2]
  have hasc : ascLeA r1 r2 = true := by
    unfold ascLeA valPairLe fyKey discKey pyGetD
    rw [h1, h2, hd1, hd2]
    simpa using hle
  have hsort : insSort ascLeA [r1, r2] = [r1, r2] := by
    simp [insSort, ordIns, hasc]
  have hkey1 : annualKey r1 = some (Val.str k) := by simp [annualKey, hpy1, htru]
  have hkey2 : annualKey r2 = some (Val.str k) := by simp [annualKey, hpy2, htru]
  have hmerge : mergeValsG annualKey [r1, r2] = [mergeTwo r1 r2] := by
    simp [mergeValsG, mergeFoldG, hkey1, hkey2, lookupK, updateK]
  have hfin : extract_annual_data today [r1, r2] include_2q = [mergeTwo r1 r2] := by
    show insSort descLeA
        (mergeValsG annualKey (insSort ascLeA
          (List.filter (annualKeep today include_2q) [r1, r2]))) = [mergeTwo r1 r2]
    rw [hfil, hsort, hmerge]
    rfl
  refine ⟨mergeTwo r1 r2, hfin, ?_, ?_, ?_⟩
  · rw [mergeTwo_disc r1 r2, hd2]
  · intro f hf hnull
    rw [mergeTwo_field r1 r2 hf hnd2]
    cases hgv : getV r2 f with
    | none => rfl
    | some v =>
      have hv : v = Val.none ∨ v = Val.str "" := by
        unfold pyGet at hnull
        rw [hgv] at hnull
        simpa using hnull
      have hg : overwriteGuard v = false := by
        rcases hv with rfl | rfl <;> decide
      simp [hg]
  · intro f v hf hgv hvn hvs
    rw [mergeTwo_field r1 r2 hf hnd2, hgv]
    have hg : overwriteGuard v = true := by
      simp [overwriteGuard, bne_iff_ne, hvn, hvs]
    simp [hg]

/-- C2 witness: a later-disclosed null `Sales` never blanks the earlier 100,
while a later-disclosed `Sales = 120` wins; the merged record's disclosure
date is the later one in both cases. -/
theorem C2_witness :
    (extract_annual_data exToday [exRecEarly, exRecLateNull] false).map
        (fun m => (pyGet m "Sales", pyGet m "DiscDate")) =
      [(Val.num 100, Val.str "2023-06-10")] ∧
    (extract_annual_data exToday [exRecEarly, exRecLate120] false).map
        (fun m => (pyGet m "Sales", pyGet m "DiscDate")) =
      [(Val.num 120, Val.str "2023-06-10")] := by
  constructor
  · obtain ⟨m, hm, hdisc, hnull, hwin⟩ :=
      C2_revision_merge exToday false exRecEarly exRecLateNull
        "2023-03-31" "2023-05-10" "2023-06-10"
        (by decide) (by decide) (by decide) (by decide) (by decide) (by decide)
        (by decide) (by decide) (by decide)
    have hsales := hnull "Sales" (by decide) (Or.inl (by decide))
    have h100 : pyGet exRecEarly "Sales" = Val.num 100 := by decide
    rw [hm]
    simp [hsales, hdisc, h100]
  · obtain ⟨m, hm, hdisc, hnull, hwin⟩ :=
      C2_revision_merge exToday false exRecEarly exRecLate120
        "2023-03-31" "2023-05-10" "2023-06-10"
        (by decide) (by decide) (by decide) (by decide) (by decide) (by decide)
        (by decide) (by decide) (by decide)
    have hsales := hwin "Sales" (Val.num 120) (by decide) (by decide) (by decide) (by decide)
    rw [hm]
    simp [hsales, hdisc]

/-- C4 witness: with the clock at 2025-06-01, a record disclosed 2026-01-15 is
dropped from the timeline, and so is one whose fiscal year ends 2026-03. -/
theorem C4_witness :
    extract_annual_data exToday [exRecDiscFuture, exRecEarly] false =
        extract_annual_data exToday [exRecEarly] false ∧
      extract_annual_data exToday [exRecEarly, exRecFyFuture] false =
        extract_annual_data exToday [exRecEarly] false :=
  ⟨C4_future_exclusion exToday false exRecDiscFuture [] [exRecEarly] (Or.inl (by decide)),
   C4_future_exclusion exToday false exRecFyFuture [exRecEarly] []
     (Or.inr ⟨(2026, 3), by decide, by decide⟩)⟩

/-! ### Order lemmas for the sort keys -/

theorem strLtL_irrefl (l : List Char) : strLtL l l = false := by
  induction l with
  | nil => rfl
  | cons a t ih => simp [strLtL, ih]

theorem strLtL_trans {a b c : List Char} (h1 : strLtL a b = true) (h2 : strLtL b c = true) :
    strLtL a c = true := by
  induction a generalizing b c with
  | nil =>
    cases b with
    | nil => simp [strLtL] at h1
    | cons y bs =>
      cases c with
      | nil => simp [strLtL] at h2
      | cons z cs => rfl
  | cons x as ih =>
    cases b with
    | nil => simp [strLtL] at h1
    | cons y bs =>
      cases c with
      | nil => simp [strLtL] at h2
      | cons z cs =>
        simp only [strLtL] at h1 h2 ⊢
        by_cases hxy : x.toNat < y.toNat
        · by_cases hyz : y.toNat < z.toNat
          · rw [if_pos (by omega)]
          · rw [if_neg hyz] at h2
            by_cases hzy : z.toNat < y.toNat
            · rw [if_pos hzy] at h2
              cases h2
            · rw [if_pos (by omega)]
        · rw [if_neg hxy] at h1
          by_cases hyx : y.toNat < x.toNat
          · rw [if_pos hyx] at h1
            cases h1
          · rw [if_neg hyx] at h1
            by_cases hyz : y.toNat < z.toNat
            · rw [if_pos (by omega)]
            · rw [if_neg hyz] at h2
              by_cases hzy : z.toNat < y.toNat
              · rw [if_pos hzy] at h2
                cases h2
              · rw [if_neg hzy] at h2
                rw [if_neg (by omega), if_neg (by omega)]
                exact ih h1 h2

theorem strLtL_asymm {a b : List Char} (h1 : strLtL a b = true) (h2 : strLtL b a = true) :
    False := by
  have h := strLtL_trans h1 h2
  rw [strLtL_irrefl] at h
  cases h

theorem strLtL_connex {a b : List Char} (h1 : strLtL a b = false) (h2 : strLtL b a = false) :
    a = b := by
  induction a generalizing b with
  | nil =>
    cases b with
    | nil => rfl
    | cons y bs => simp [strLtL] at h1
  | cons x as ih =>
    cases b with
    | nil => simp [strLtL] at h2
    | cons y bs =>
      simp only [strLtL] at h1 h2
      by_cases hxy : x.toNat < y.toNat
      · rw [if_pos hxy] at h1
        cases h1
      · rw [if_neg hxy] at h1
        by_cases hyx : y.toNat < x.toNat
        · rw [if_pos hyx] at h2
          cases h2
        · rw [if_neg hyx] at h1
          rw [if_neg hyx, if_neg hxy] at h2
          have hn : x.toNat = y.toNat := by omega
          have hchar : x = y := Char.eq_of_val_eq (UInt32.ext hn)
          rw [hchar, ih h1 h2]

theorem valLe_refl (a : Val) : valLe a a = true := by
  cases a with
  | none => rfl
  | nan => rfl
  | num q => simp [valLe]
  | str s => simp [valLe, strLtB, strLtL_irrefl]

theorem valLe_total (a b : Val) : valLe a b = true ∨ valLe b a = true := by
  rcases a with _ | _ | p | s <;> rcases b with _ | _ | q | t <;>
      simp only [valLe, Val.rank, decide_eq_true_eq, Bool.not_eq_true', strLtB] <;>
      try omega
  · exact le_total p q
  · cases h : strLtL t.toList s.toList with
    | false => exact Or.inl rfl
    | true =>
      cases hh : strLtL s.toList t.toList with
      | false => exact Or.inr rfl
      | true => exact (strLtL_asymm h hh).elim

theorem valLe_trans {a b c : Val} (h1 : valLe a b = true) (h2 : valLe b c = true) :
    valLe a c = true := by
  rcases a with _ | _ | p | s <;> rcases b with _ | _ | q | t <;> rcases c with _ | _ | w | u <;>
      simp only [valLe, Val.rank, decide_eq_true_eq, Bool.not_eq_true', strLtB] at h1 h2 ⊢ <;>
      try omega
  · exact le_trans h1 h2
  · cases hus : strLtL u.toList s.toList with
    | false => rfl
    | true =>
      by_cases htu : strLtL t.toList u.toList = true
      · have hts := strLtL_trans htu hus
        rw [h1] at hts
        cases hts
      · have htu' : strLtL t.toList u.toList = false := by
          revert htu
          cases strLtL t.toList u.toList <;> simp
        have heq : u.toList = t.toList := strLtL_connex h2 htu'
        rw [heq] at hus
        rw [hus] at h1
        cases h1

theorem valLe_antisymm {a b : Val} (h1 : valLe a b = true) (h2 : valLe b a = true) : a = b := by
  rcases a with _ | _ | p | s <;> rcases b with _ | _ | q | t <;>
      simp only [valLe, Val.rank, decide_eq_true_eq, Bool.not_eq_true', strLtB] at h1 h2 <;>
      try omega
  · rfl
  · rfl
  · exact congrArg Val.num (le_antisymm h1 h2)
  · have heq : t.toList = s.toList := strLtL_connex h1 h2
    have : s = t := by
      cases s
      cases t
      simp only [String.toList] at heq
      exact congrArg String.mk heq.symm
    rw [this]

theorem valPairLe_refl (p : Val × Val) : valPairLe p p = true := by
  simp [valPairLe, valLe_refl]

theorem valPairLe_total (p q : Val × Val) : valPairLe p q = true ∨ valPairLe q p = true := by
  unfold valPairLe
  by_cases h : p.1 = q.1
  · rw [if_pos h, if_pos h.symm]
    exact valLe_total _ _
  · rw [if_neg h, if_neg (fun hh => h hh.symm)]
    exact valLe_total _ _

theorem valPairLe_trans {p q r : Val × Val} (h1 : valPairLe p q = true)
    (h2 : valPairLe q r = true) : valPairLe p r = true := by
  unfold valPairLe at h1 h2 ⊢
  by_cases hpq : p.1 = q.1
  · rw [if_pos hpq] at h1
    by_cases hqr : q.1 = r.1
    · rw [if_pos hqr] at h2
      rw [if_pos (hpq.trans hqr)]
      exact valLe_trans h1 h2
    · rw [if_neg hqr] at h2
      rw [if_neg (by rw [hpq]; exact hqr), hpq]
      exact h2
  · rw [if_neg hpq] at h1
    by_cases hqr : q.1 = r.1
    · rw [if_pos hqr] at h2
      rw [if_neg (by rw [← hqr]; exact hpq), ← hqr]
      exact h1
    · rw [if_neg hqr] at h2
      by_cases hpr : p.1 = r.1
      · exact absurd (valLe_antisymm h1 (by rw [hpr]; exact h2)) hpq
      · rw [if_neg hpr]
        exact valLe_trans h1 h2

theorem valPairLe_antisymm {p q : Val × Val} (h1 : valPairLe p q = true)
    (h2 : valPairLe q p = true) : p = q := by
  unfold valPairLe at h1 h2
  by_cases hpq : p.1 = q.1
  · rw [if_pos hpq] at h1
    rw [if_pos hpq.symm] at h2
    obtain ⟨p1, p2⟩ := p
    obtain ⟨q1, q2⟩ := q
    simp only at hpq h1 h2
    rw [hpq, valLe_antisymm h1 h2]
  · rw [if_neg hpq] at h1
    rw [if_neg (fun hh => hpq hh.symm)] at h2
    exact absurd (valLe_antisymm h1 h2) hpq

/-! ### Record-update auxiliaries -/

theorem b_eq_false {b : Bool} (h : ¬ b = true) : b = false := by
  cases b
  · rfl
  · exact absurd rfl h

theorem setV_id {r : Rec} {k : String} {v : Val} (h : getV r k = some v) : setV r k v = r := by
  induction r with
  | nil => cases h
  | cons a t ih =>
    obtain ⟨a1, a2⟩ := a
    simp only [getV] at h
    by_cases hk : a1 = k
    · rw [if_pos hk] at h
      cases h
      simp only [setV, if_pos hk]
    · rw [if_neg hk] at h
      simp only [setV, if_neg hk, ih h]

theorem setV_setV (r : Rec) (k : String) (v w : Val) : setV (setV r k v) k w = setV r k w := by
  induction r with
  | nil => simp [setV]
  | cons a t ih =>
    obtain ⟨a1, a2⟩ := a
    by_cases hk : a1 = k
    · simp [setV, hk]
    · simp [setV, hk, ih]

theorem getV_of_pyGet_ne {r : Rec} {k : String} {v : Val} (h : pyGet r k = v)
    (hv : v ≠ Val.none) : getV r k = some v := by
  unfold pyGet at h
  cases hgv : getV r k with
  | none =>
    rw [hgv] at h
    cases h
    exact absurd rfl hv
  | some w =>
    rw [hgv] at h
    cases h
    rfl

theorem pyGetD_empty_truthy (r : Rec) (k : String) :
    (pyGetD r k (Val.str "")).truthy = (pyGet r k).truthy := by
  unfold pyGetD pyGet
  cases getV r k <;> rfl

theorem pyGetD_empty_eq_of_truthy {r : Rec} {k : String}
    (h : (pyGet r k).truthy = true) : pyGetD r k (Val.str "") = pyGet r k := by
  unfold pyGet at h
  unfold pyGetD pyGet
  cases hgv : getV r k with
  | none =>
    rw [hgv] at h
    simp [Val.truthy] at h
  | some w => rfl

theorem fyKey_eq_of_truthy {r : Rec} (h : (pyGet r "CurFYEn").truthy = true) :
    fyKey r = pyGet r "CurFYEn" := pyGetD_empty_eq_of_truthy h

theorem annualKey_of {r : Rec} {k : Val} (h : pyGet r "CurFYEn" = k) (ht : k.truthy = true) :
    annualKey r = some k := by
  simp only [annualKey]
  rw [h, if_pos ht]

theorem getStr_eq_strOfVal (r : Rec) (k : String) : getStr r k = strOfVal (pyGet r k) := by
  unfold getStr pyGetD pyGet
  cases getV r k with
  | none => rfl
  | some v => cases v <;> rfl

theorem annualDiscFuture_congr {a b : Rec} (today : Date)
    (h : getStr a "DiscDate" = getStr b "DiscDate") :
    annualDiscFuture today a = annualDiscFuture today b := by
  simp only [annualDiscFuture]
  rw [h]

/-! ### The keyed fold is the identity on key-distinct inputs -/

theorem lookupK_eq_none {κ : Type} [DecidableEq κ] {acc : List (κ × Rec)} {k : κ}
    (h : lookupK acc k = Option.none) : ∀ p ∈ acc, p.1 ≠ k := by
  induction acc with
  | nil =>
    intro p hp
    cases hp
  | cons a t ih =>
    obtain ⟨a1, a2⟩ := a
    simp only [lookupK] at h
    by_cases hk : a1 = k
    · rw [if_pos hk] at h
      cases h
    · rw [if_neg hk] at h
      intro p hp
      rcases List.mem_cons.mp hp with rfl | hp
      · exact hk
      · exact ih h p hp

theorem mem_keys_updateK {κ : Type} [DecidableEq κ] {acc : List (κ × Rec)} {k x : κ} {v : Rec}
    (h : x ∈ (updateK acc k v).map Prod.fst) : x ∈ acc.map Prod.fst ∨ x = k := by
  induction acc with
  | nil =>
    simp only [updateK, List.map_cons, List.map_nil, List.mem_singleton] at h
    exact Or.inr h
  | cons a t ih =>
    obtain ⟨a1, a2⟩ := a
    by_cases hk : a1 = k
    · simp only [updateK, if_pos hk, List.map_cons, List.mem_cons] at h
      rcases h with rfl | h
      · exact Or.inl (List.mem_cons_self _ _)
      · exact Or.inl (List.mem_cons_of_mem _ h)
    · simp only [updateK, if_neg hk, List.map_cons, List.mem_cons] at h
      rcases h with rfl | h
      · exact Or.inl (List.mem_cons_self _ _)
      · rcases ih h with h' | h'
        · exact Or.inl (List.mem_cons_of_mem _ h')
        · exact Or.inr h'

theorem updateK_keys_nodup {κ : Type} [DecidableEq κ] {acc : List (κ × Rec)} (k : κ) (v : Rec)
    (h : (acc.map Prod.fst).Nodup) : ((updateK acc k v).map Prod.fst).Nodup := by
  induction acc with
  | nil => simp [updateK]
  | cons a t ih =>
    obtain ⟨a1, a2⟩ := a
    simp only [List.map_cons, List.nodup_cons] at h
    obtain ⟨ha1, hndt⟩ := h
    by_cases hk : a1 = k
    · simp only [updateK, if_pos hk, List.map_cons, List.nodup_cons]
      exact ⟨ha1, hndt⟩
    · simp only [updateK, if_neg hk, List.map_cons, List.nodup_cons]
      refine ⟨fun hmem => ?_, ih hndt⟩
      rcases mem_keys_updateK hmem with h' | h'
      · exact ha1 h'
      · exact hk h'

theorem mergeFold_fst_nodup {κ : Type} [DecidableEq κ] (keyOf : Rec → Option κ)
    (l : List Rec) (acc : List (κ × Rec)) (h : (acc.map Prod.fst).Nodup) :
    ((mergeFoldG keyOf acc l).map Prod.fst).Nodup := by
  induction l generalizing acc with
  | nil => exact h
  | cons r rest ih =>
    cases hk : keyOf r with
    | none =>
      simp only [mergeFoldG, hk]
      exact ih acc h
    | some k =>
      cases hlk : lookupK acc k with
      | none =>
        simp only [mergeFoldG, hk, hlk]
        refine ih _ ?_
        rw [List.map_append]
        refine List.Nodup.append h (List.nodup_singleton k) ?_
        intro x hx hxk
        rcases List.mem_singleton.mp (by simpa using hxk) with rfl
        rcases List.mem_map.mp hx with ⟨p, hp, hpk⟩
        exact lookupK_eq_none hlk p hp hpk
      | some ex =>
        simp only [mergeFoldG, hk, hlk]
        exact ih _ (updateK_keys_nodup k _ h)

theorem mergeFold_snd_of_fresh {κ : Type} [DecidableEq κ] (keyOf : Rec → Option κ)
    (l : List Rec) :
    ∀ acc : List (κ × Rec), (∀ r ∈ l, ∃ k, keyOf r = some k) → (l.map keyOf).Nodup →
      (∀ p ∈ acc, ∀ r ∈ l, keyOf r ≠ some p.1) →
      (mergeFoldG keyOf acc l).map Prod.snd = acc.map Prod.snd ++ l := by
  induction l with
  | nil =>
    intro acc _ _ _
    simp [mergeFoldG]
  | cons r rest ih =>
    intro acc hsome hnd hfresh
    obtain ⟨k, hk⟩ := hsome r (List.mem_cons_self _ _)
    have hlk : lookupK acc k = Option.none := by
      cases hlk : lookupK acc k with
      | none => rfl
      | some ex =>
        exact absurd hk (hfresh (k, ex) (lookupK_mem hlk) r (List.mem_cons_self _ _))
    simp only [mergeFoldG, hk, hlk]
    have hnd' : (rest.map keyOf).Nodup := by
      simp only [List.map_cons, List.nodup_cons] at hnd
      exact hnd.2
    have hfresh' : ∀ p ∈ acc ++ [(k, r)], ∀ x ∈ rest, keyOf x ≠ some p.1 := by
      intro p hp x hx hxk
      rcases List.mem_append.mp hp with hp' | hp'
      · exact hfresh p hp' x (List.mem_cons_of_mem _ hx) hxk
      · rcases List.mem_singleton.mp hp' with rfl
        simp only [List.map_cons, List.nodup_cons] at hnd
        have hkx : keyOf r = keyOf x := by rw [hk, hxk]
        exact hnd.1 (by rw [hkx]; exact List.mem_map_of_mem keyOf hx)
    rw [ih _ (fun x hx => hsome x (List.mem_cons_of_mem _ hx)) hnd' hfresh']
    simp

theorem mergeVals_eq_self {κ : Type} [DecidableEq κ] (keyOf : Rec → Option κ)
    (l : List Rec) (hsome : ∀ r ∈ l, ∃ k, keyOf r = some k)
    (hnd : (l.map keyOf).Nodup) : mergeValsG keyOf l = l := by
  unfold mergeValsG
  rw [mergeFold_snd_of_fresh keyOf l [] hsome hnd (by intro p hp; cases hp)]
  rfl

/-! ### Sortedness, stability and uniqueness of the insertion sort -/

theorem mem_ordIns {le : α → α → Bool} {x y : α} {l : List α} (h : y ∈ ordIns le x l) :
    y = x ∨ y ∈ l := by
  have := (ordIns_perm le x l).mem_iff.mp h
  simpa using this

theorem pairwise_ordIns (le : α → α → Bool)
    (htot : ∀ a b, le a b = true ∨ le b a = true)
    (htrans : ∀ a b c, le a b = true → le b c = true → le a c = true)
    (x : α) {l : List α} (h : l.Pairwise fun a b => le a b = true) :
    (ordIns le x l).Pairwise fun a b => le a b = true := by
  induction l with
  | nil => simp [ordIns]
  | cons b t ih =>
    rw [List.pairwise_cons] at h
    obtain ⟨hb, ht⟩ := h
    by_cases hxb : le x b = true
    · simp only [ordIns, if_pos hxb]
      rw [List.pairwise_cons]
      refine ⟨?_, ?_⟩
      · intro y hy
        rcases List.mem_cons.mp hy with rfl | hy'
        · exact hxb
        · exact htrans x b y hxb (hb y hy')
      · rw [List.pairwise_cons]
        exact ⟨hb, ht⟩
    · simp only [ordIns, if_neg hxb]
      rw [List.pairwise_cons]
      refine ⟨?_, ih ht⟩
      intro y hy
      rcases mem_ordIns hy with h'' | hy'
      · rw [h'']
        rcases htot x b with h' | h'
        · exact absurd h' hxb
        · exact h'
      · exact hb y hy'

theorem pairwise_insSort (le : α → α → Bool)
    (htot : ∀ a b, le a b = true ∨ le b a = true)
    (htrans : ∀ a b c, le a b = true → le b c = true → le a c = true)
    (l : List α) : (insSort le l).Pairwise fun a b => le a b = true := by
  induction l with
  | nil => simp [insSort]
  | cons a t ih =>
    simp only [insSort]
    exact pairwise_ordIns le htot htrans a ih

theorem filter_ordIns (le : α → α → Bool) (p : α → Bool)
    (hcomp : ∀ a b, p a = true → p b = true → le a b = true)
    (x : α) (l : List α) :
    (ordIns le x l).filter p = (x :: l).filter p := by
  induction l with
  | nil => rfl
  | cons b t ih =>
    simp only [ordIns]
    by_cases hxb : le x b = true
    · rw [if_pos hxb]
    · rw [if_neg hxb]
      by_cases hpb : p b = true
      · have hpx : p x = false := by
          cases hpx : p x with
          | false => rfl
          | true => exact absurd (hcomp x b hpx hpb) hxb
        simp [List.filter_cons, hpb, hpx, ih]
      · simp [List.filter_cons, b_eq_false hpb, ih]

theorem filter_insSort (le : α → α → Bool) (p : α → Bool)
    (hcomp : ∀ a b, p a = true → p b = true → le a b = true) (l : List α) :
    (insSort le l).filter p = l.filter p := by
  induction l with
  | nil => rfl
  | cons a t ih =>
    simp only [insSort]
    rw [filter_ordIns le p hcomp a (insSort le t)]
    simp [List.filter_cons, ih]

theorem sorted_perm_eq_of_ties (le : α → α → Bool) (hrefl : ∀ a, le a a = true) :
    ∀ {l1 l2 : List α}, l1.Perm l2 →
      l1.Pairwise (fun a b => le a b = true) → l2.Pairwise (fun a b => le a b = true) →
      (∀ c, l1.filter (tieB le c) = l2.filter (tieB le c)) → l1 = l2 := by
  intro l1
  induction l1 with
  | nil =>
    intro l2 hp _ _ _
    exact (hp.symm.eq_nil).symm
  | cons a t1 ih =>
    intro l2 hp h1 h2 hf
    cases l2 with
    | nil => exact absurd hp.eq_nil (List.cons_ne_nil a t1)
    | cons b t2 =>
      have hab : a = b := by
        by_cases heq : a = b
        · exact heq
        · have ha2 : a ∈ t2 := by
            rcases List.mem_cons.mp (hp.mem_iff.mp (List.mem_cons_self a t1)) with h' | h'
            · exact absurd h' heq
            · exact h'
          have hb1 : b ∈ t1 := by
            rcases List.mem_cons.mp (hp.mem_iff.mpr (List.mem_cons_self b t2)) with h' | h'
            · exact absurd h'.symm heq
            · exact h'
          have hab' : le a b = true := (List.pairwise_cons.mp h1).1 b hb1
          have hba : le b a = true := (List.pairwise_cons.mp h2).1 a ha2
          have hta : tieB le a a = true := by simp [tieB, hrefl]
          have htb : tieB le a b = true := by simp [tieB, hab', hba]
          have hfa := hf a
          simp only [List.filter_cons, hta, htb, if_true] at hfa
          exact (List.cons_eq_cons.mp hfa).1
      subst hab
      have hf' : ∀ c, t1.filter (tieB le c) = t2.filter (tieB le c) := by
        intro c
        have hfc := hf c
        by_cases hca : tieB le c a = true
        · simp only [List.filter_cons, hca, if_true] at hfc
          exact (List.cons_eq_cons.mp hfc).2
        · simpa only [List.filter_cons, b_eq_false hca, if_false, Bool.false_eq_true] using hfc
      rw [ih hp.cons_inv (List.pairwise_cons.mp h1).2 (List.pairwise_cons.mp h2).2 hf']

theorem sorted_perm_eq_of_antisymm (le : α → α → Bool) :
    ∀ {l1 l2 : List α}, l1.Perm l2 →
      l1.Pairwise (fun a b => le a b = true) → l2.Pairwise (fun a b => le a b = true) →
      (∀ a ∈ l1, ∀ b ∈ l1, tieB le a b = true → a = b) → l1 = l2 := by
  intro l1
  induction l1 with
  | nil =>
    intro l2 hp _ _ _
    exact (hp.symm.eq_nil).symm
  | cons a t1 ih =>
    intro l2 hp h1 h2 hanti
    cases l2 with
    | nil => exact absurd hp.eq_nil (List.cons_ne_nil a t1)
    | cons b t2 =>
      have hab : a = b := by
        by_cases heq : a = b
        · exact heq
        · have ha2 : a ∈ t2 := by
            rcases List.mem_cons.mp (hp.mem_iff.mp (List.mem_cons_self a t1)) with h' | h'
            · exact absurd h' heq
            · exact h'
          have hb1 : b ∈ t1 := by
            rcases List.mem_cons.mp (hp.mem_iff.mpr (List.mem_cons_self b t2)) with h' | h'
            · exact absurd h'.symm heq
            · exact h'
          have hab' : le a b = true := (List.pairwise_cons.mp h1).1 b hb1
          have hba : le b a = true := (List.pairwise_cons.mp h2).1 a ha2
          exact hanti a (List.mem_cons_self _ _) b (List.mem_cons_of_mem _ hb1)
            (by simp [tieB, hab', hba])
      subst hab
      rw [ih hp.cons_inv (List.pairwise_cons.mp h1).2 (List.pairwise_cons.mp h2).2
        (fun x hx y hy ht =>
          hanti x (List.mem_cons_of_mem _ hx) y (List.mem_cons_of_mem _ hy) ht)]

theorem filterMap_id_of_fix {f : α → Option α} {l : List α} (h : ∀ a ∈ l, f a = some a) :
    l.filterMap f = l := by
  induction l with
  | nil => rfl
  | cons a t ih =>
    rw [List.filterMap_cons, h a (List.mem_cons_self a t),
      ih (fun x hx => h x (List.mem_cons_of_mem a hx))]

/-! ### The annual and quarterly sort relations are total preorders -/

theorem descLeA_total (a b : Rec) : descLeA a b = true ∨ descLeA b a = true := by
  unfold descLeA
  rcases valLe_total (fyKey b) (fyKey a) with h | h
  · exact Or.inl h
  · exact Or.inr h

theorem descLeA_trans {a b c : Rec} (h1 : descLeA a b = true) (h2 : descLeA b c = true) :
    descLeA a c = true := by
  unfold descLeA at h1 h2 ⊢
  exact valLe_trans h2 h1

theorem descLeQ_total (a b : Rec) : descLeQ a b = true ∨ descLeQ b a = true := by
  unfold descLeQ
  rcases valPairLe_total (qendKey b, discKey b) (qendKey a, discKey a) with h | h
  · exact Or.inl h
  · exact Or.inr h

theorem descLeQ_trans {a b c : Rec} (h1 : descLeQ a b = true) (h2 : descLeQ b c = true) :
    descLeQ a c = true := by
  unfold descLeQ at h1 h2 ⊢
  exact valPairLe_trans h2 h1

theorem descLeQ_refl (a : Rec) : descLeQ a a = true := by
  unfold descLeQ
  exact valPairLe_refl _

theorem normDiscKey_congr {a b : Rec} (h : discKey a = discKey b) :
    normDiscKey a = normDiscKey b := by
  unfold discKey at h
  unfold normDiscKey
  rw [h]

theorem descLeQ_tie_keys {a b : Rec} (h : tieB descLeQ a b = true) :
    qendKey a = qendKey b ∧ discKey a = discKey b := by
  simp only [tieB, Bool.and_eq_true] at h
  obtain ⟨h1, h2⟩ := h
  unfold descLeQ at h1 h2
  have := valPairLe_antisymm h2 h1
  exact ⟨congrArg Prod.fst this, congrArg Prod.snd this⟩

theorem descLeQ_tie_compat {c a b : Rec} (h1 : tieB descLeQ c a = true)
    (h2 : tieB descLeQ c b = true) : descLeQ a b = true := by
  simp only [tieB, Bool.and_eq_true] at h1 h2
  exact descLeQ_trans h1.2 h2.1

theorem ascLeQ_tie_compat {c a b : Rec} (h1 : tieB descLeQ c a = true)
    (h2 : tieB descLeQ c b = true) : ascLeQ a b = true := by
  have hab : tieB descLeQ a b = true := by
    simp only [tieB, Bool.and_eq_true] at h1 h2 ⊢
    exact ⟨descLeQ_trans h1.2 h2.1, descLeQ_trans h2.2 h1.1⟩
  obtain ⟨hq, hd⟩ := descLeQ_tie_keys hab
  unfold ascLeQ
  rw [hq, normDiscKey_congr hd]
  exact valPairLe_refl _

/-! ### Field transfer across the reconciliation merge -/

theorem valid_field_mergeTwo (ex : Rec) {r : Rec} {f : String} (hnd : (r.map Prod.fst).Nodup)
    (hf : f ≠ "DiscDate") (hv : is_valid_value (pyGet r f) = true) :
    is_valid_value (pyGet (mergeTwo ex r) f) = true := by
  have hne : pyGet r f ≠ Val.none := by
    intro h
    rw [h] at hv
    simp [is_valid_value] at hv
  have hg : getV r f = some (pyGet r f) := getV_of_pyGet_ne rfl hne
  have hguard : overwriteGuard (pyGet r f) = true := by
    unfold overwriteGuard
    rw [hv]
    rfl
  rw [mergeTwo_field ex r hf hnd, hg]
  simp only [hguard, if_true]
  exact hv

theorem truthy_field_mergeTwo (ex : Rec) {r : Rec} {f : String} (hnd : (r.map Prod.fst).Nodup)
    (hf : f ≠ "DiscDate") (hv : (pyGet r f).truthy = true) :
    pyGet (mergeTwo ex r) f = pyGet r f := by
  have hg : getV r f = some (pyGet r f) := getV_of_pyGet_truthy rfl hv
  rw [mergeTwo_field ex r hf hnd, hg]
  simp [overwriteGuard_of_truthy hv]

theorem disc_mergeTwo_truthy (ex : Rec) {r : Rec} (hv : (pyGet r "DiscDate").truthy = true) :
    pyGet (mergeTwo ex r) "DiscDate" = pyGet r "DiscDate" := by
  have hg : getV r "DiscDate" = some (pyGet r "DiscDate") := getV_of_pyGet_truthy rfl hv
  rw [mergeTwo_disc, hg]

theorem valid_mergeTwo (ex : Rec) {r : Rec} (hnd : (r.map Prod.fst).Nodup)
    (hv : is_valid_financial_record r = true) :
    is_valid_financial_record (mergeTwo ex r) = true := by
  unfold is_valid_financial_record at hv ⊢
  simp only [Bool.or_eq_true, Bool.and_eq_true] at hv ⊢
  rcases hv with (((h | h) | h) | h) | ⟨h1, h2⟩
  · exact Or.inl (Or.inl (Or.inl (Or.inl (valid_field_mergeTwo ex hnd (by decide) h))))
  · exact Or.inl (Or.inl (Or.inl (Or.inr (valid_field_mergeTwo ex hnd (by decide) h))))
  · exact Or.inl (Or.inl (Or.inr (valid_field_mergeTwo ex hnd (by decide) h)))
  · exact Or.inl (Or.inr (valid_field_mergeTwo ex hnd (by decide) h))
  · refine Or.inr ⟨?_, ?_⟩
    · rw [truthy_field_mergeTwo ex hnd (by decide) h1]
      exact h1
    · rw [disc_mergeTwo_truthy ex h2]
      exact h2

/-! ### Survival of the annual filter across the reconciliation merge -/

theorem annualKeep_parts {today : Date} {i2q : Bool} {r : Rec}
    (h : annualKeep today i2q r = true) :
    annualTypeOK i2q r = true ∧ annualDiscFuture today r = false ∧
      (if getStr r "CurFYEn" = "" then is_valid_financial_record r
       else match annualFyYM (getStr r "CurFYEn") with
         | Option.none => true
         | some ym => !ymFuture today ym && is_valid_financial_record r) = true := by
  have h' : (annualTypeOK i2q r && !annualDiscFuture today r &&
      (if getStr r "CurFYEn" = "" then is_valid_financial_record r
       else match annualFyYM (getStr r "CurFYEn") with
         | Option.none => true
         | some ym => !ymFuture today ym && is_valid_financial_record r)) = true := h
  simp only [Bool.and_eq_true, Bool.not_eq_true'] at h'
  exact ⟨h'.1.1, h'.1.2, h'.2⟩

theorem annualKeep_of_parts {today : Date} {i2q : Bool} {r : Rec}
    (h1 : annualTypeOK i2q r = true) (h2 : annualDiscFuture today r = false)
    (h3 : (if getStr r "CurFYEn" = "" then is_valid_financial_record r
       else match annualFyYM (getStr r "CurFYEn") with
         | Option.none => true
         | some ym => !ymFuture today ym && is_valid_financial_record r) = true) :
    annualKeep today i2q r = true := by
  show (annualTypeOK i2q r && !annualDiscFuture today r &&
      (if getStr r "CurFYEn" = "" then is_valid_financial_record r
       else match annualFyYM (getStr r "CurFYEn") with
         | Option.none => true
         | some ym => !ymFuture today ym && is_valid_financial_record r)) = true
  rw [h1, h2, h3]
  rfl

theorem annualKeep_mergeTwo (today : Date) (i2q : Bool) (ex : Rec) {r : Rec}
    (hnd : (r.map Prod.fst).Nodup)
    (hkr : annualKeep today i2q r = true)
    (hdex : annualDiscFuture today ex = false)
    (hkt : (pyGet r "CurFYEn").truthy = true) :
    annualKeep today i2q (mergeTwo ex r) = true := by
  obtain ⟨htype, hdisc, hbranch⟩ := annualKeep_parts hkr
  have hfy_m : pyGet (mergeTwo ex r) "CurFYEn" = pyGet r "CurFYEn" :=
    truthy_field_mergeTwo ex hnd (by decide) hkt
  have htype_m : annualTypeOK i2q (mergeTwo ex r) = true := by
    unfold annualTypeOK at htype ⊢
    simp only [Bool.or_eq_true, Bool.and_eq_true, decide_eq_true_eq] at htype ⊢
    rcases htype with h | ⟨hq, h⟩
    · left
      rw [truthy_field_mergeTwo ex hnd (by decide) (by rw [h]; decide)]
      exact h
    · right
      refine ⟨hq, ?_⟩
      rw [truthy_field_mergeTwo ex hnd (by decide) (by rw [h]; decide)]
      exact h
  have hdisc_m : annualDiscFuture today (mergeTwo ex r) = false := by
    cases hgd : getV r "DiscDate" with
    | some v =>
      have hpm : pyGet (mergeTwo ex r) "DiscDate" = v := by rw [mergeTwo_disc, hgd]
      have hpr : pyGet r "DiscDate" = v := by
        unfold pyGet
        rw [hgd]
        rfl
      have hstr : getStr (mergeTwo ex r) "DiscDate" = getStr r "DiscDate" := by
        rw [getStr_eq_strOfVal, getStr_eq_strOfVal, hpm, hpr]
      rw [annualDiscFuture_congr today hstr]
      exact hdisc
    | none =>
      have hpm : pyGet (mergeTwo ex r) "DiscDate" = pyGet ex "DiscDate" := by
        rw [mergeTwo_disc, hgd]
      have hstr : getStr (mergeTwo ex r) "DiscDate" = getStr ex "DiscDate" := by
        rw [getStr_eq_strOfVal, getStr_eq_strOfVal, hpm]
      rw [annualDiscFuture_congr today hstr]
      exact hdex
  have hstr_fy : getStr (mergeTwo ex r) "CurFYEn" = getStr r "CurFYEn" := by
    rw [getStr_eq_strOfVal, getStr_eq_strOfVal, hfy_m]
  refine annualKeep_of_parts htype_m hdisc_m ?_
  rw [hstr_fy]
  by_cases hfye : getStr r "CurFYEn" = ""
  · rw [if_pos hfye]
    rw [if_pos hfye] at hbranch
    exact valid_mergeTwo ex hnd hbranch
  · rw [if_neg hfye]
    rw [if_neg hfye] at hbranch
    cases hym : annualFyYM (getStr r "CurFYEn") with
    | none => rfl
    | some ym =>
      rw [hym] at hbranch
      simp only [Bool.and_eq_true, Bool.not_eq_true'] at hbranch ⊢
      exact ⟨hbranch.1, valid_mergeTwo ex hnd hbranch.2⟩

/-! ### Shape of the annual extraction output -/

theorem annual_out_inv (today : Date) (i2q : Bool) (l : List Rec)
    (hl : ∀ r ∈ l, (r.map Prod.fst).Nodup) :
    (∀ m ∈ extract_annual_data today l i2q,
        annualKeep today i2q m = true ∧ (pyGet m "CurFYEn").truthy = true ∧
          (m.map Prod.fst).Nodup) ∧
      ((extract_annual_data today l i2q).map annualKey).Nodup ∧
      (extract_annual_data today l i2q).Pairwise (fun a b => descLeA a b = true) := by
  have hlR : ∀ r ∈ insSort ascLeA (l.filter (annualKeep today i2q)),
      annualKeep today i2q r = true ∧ (r.map Prod.fst).Nodup := by
    intro r hr
    have hr' := (insSort_perm ascLeA _).mem_iff.mp hr
    obtain ⟨hrl, hkeep⟩ := List.mem_filter.mp hr'
    exact ⟨hkeep, hl r hrl⟩
  have hinv := mergeFold_inv annualKey
    (fun r => annualKeep today i2q r = true ∧ (r.map Prod.fst).Nodup)
    (fun k m => annualKey m = some k ∧ annualKeep today i2q m = true ∧
      (m.map Prod.fst).Nodup)
    (fun r k hR hk => ⟨hk, hR.1, hR.2⟩)
    (fun k ex r hP hR hk => by
      obtain ⟨hkr, hktruthy⟩ := annualKey_eq_some hk
      have hkt : (pyGet r "CurFYEn").truthy = true := by rw [hkr]; exact hktruthy
      refine ⟨?_, ?_, mergeTwo_keys_nodup ex r hP.2.2⟩
      · have hfy : pyGet (mergeTwo ex r) "CurFYEn" = k := by
          rw [truthy_field_mergeTwo ex hR.2 (by decide) hkt]
          exact hkr
        exact annualKey_of hfy hktruthy
      · exact annualKeep_mergeTwo today i2q ex hR.2 hR.1
          (annualKeep_parts hP.2.1).2.1 hkt)
    (insSort ascLeA (l.filter (annualKeep today i2q))) []
    (by intro p hp; cases hp) hlR
  have hfst := mergeFold_fst_nodup annualKey
    (insSort ascLeA (l.filter (annualKeep today i2q))) [] (by simp)
  have hext : extract_annual_data today l i2q =
      insSort descLeA ((mergeFoldG annualKey []
        (insSort ascLeA (l.filter (annualKeep today i2q)))).map Prod.snd) := rfl
  have hperm : (extract_annual_data today l i2q).Perm
      ((mergeFoldG annualKey []
        (insSort ascLeA (l.filter (annualKeep today i2q)))).map Prod.snd) := by
    rw [hext]
    exact insSort_perm _ _
  refine ⟨?_, ?_, ?_⟩
  · intro m hm
    have hm' := hperm.mem_iff.mp hm
    obtain ⟨p, hp, hpm⟩ := List.mem_map.mp hm'
    obtain ⟨_, hkeep, hnod⟩ := hinv p hp
    have hkey := (hinv p hp).1
    subst hpm
    obtain ⟨hfy, htr⟩ := annualKey_eq_some hkey
    exact ⟨hkeep, by rw [hfy]; exact htr, hnod⟩
  · have hmk : ((mergeFoldG annualKey []
        (insSort ascLeA (l.filter (annualKeep today i2q)))).map Prod.snd).map annualKey =
        ((mergeFoldG annualKey []
          (insSort ascLeA (l.filter (annualKeep today i2q)))).map Prod.fst).map some := by
      rw [List.map_map, List.map_map]
      exact List.map_congr_left (fun p hp => (hinv p hp).1)
    have hnd2 : (((mergeFoldG annualKey []
        (insSort ascLeA (l.filter (annualKeep today i2q)))).map Prod.snd).map
          annualKey).Nodup := by
      rw [hmk]
      exact hfst.map (Option.some_injective Val)
    exact ((hperm.map annualKey).nodup_iff).mpr hnd2
  · rw [hext]
    exact pairwise_insSort descLeA descLeA_total (fun a b c h1 h2 => descLeA_trans h1 h2) _

/-! ### The annual extraction is idempotent -/

theorem annual_idem (today : Date) (i2q : Bool) (l : List Rec)
    (hl : ∀ r ∈ l, (r.map Prod.fst).Nodup) :
    extract_annual_data today (extract_annual_data today l i2q) i2q =
      extract_annual_data today l i2q := by
  obtain ⟨hmem, hkeys, hsorted⟩ := annual_out_inv today i2q l hl
  have hfilter : (extract_annual_data today l i2q).filter (annualKeep today i2q) =
      extract_annual_data today l i2q :=
    List.filter_eq_self.mpr (fun m hm => (hmem m hm).1)
  have hsome : ∀ m ∈ insSort ascLeA (extract_annual_data today l i2q),
      ∃ k, annualKey m = some k := by
    intro m hm
    have hm' := (insSort_perm ascLeA _).mem_iff.mp hm
    exact ⟨pyGet m "CurFYEn", annualKey_of rfl (hmem m hm').2.1⟩
  have hndz : ((insSort ascLeA (extract_annual_data today l i2q)).map annualKey).Nodup :=
    (((insSort_perm ascLeA _).map annualKey).nodup_iff).mpr hkeys
  have hmerge : mergeValsG annualKey (insSort ascLeA (extract_annual_data today l i2q)) =
      insSort ascLeA (extract_annual_data today l i2q) :=
    mergeVals_eq_self annualKey _ hsome hndz
  have hanti : ∀ a ∈ extract_annual_data today l i2q,
      ∀ b ∈ extract_annual_data today l i2q, tieB descLeA a b = true → a = b := by
    intro a ha b hb ht
    simp only [tieB, Bool.and_eq_true] at ht
    have h1 : valLe (fyKey a) (fyKey b) = true := ht.2
    have h2 : valLe (fyKey b) (fyKey a) = true := ht.1
    have hkey_eq : fyKey a = fyKey b := valLe_antisymm h1 h2
    have hka : annualKey a = some (fyKey a) := by
      rw [fyKey_eq_of_truthy (hmem a ha).2.1]
      exact annualKey_of rfl (hmem a ha).2.1
    have hkb : annualKey b = some (fyKey b) := by
      rw [fyKey_eq_of_truthy (hmem b hb).2.1]
      exact annualKey_of rfl (hmem b hb).2.1
    exact List.inj_on_of_nodup_map hkeys ha hb (by rw [hka, hkb, hkey_eq])
  have hpp : (insSort descLeA (insSort ascLeA (extract_annual_data today l i2q))).Perm
      (extract_annual_data today l i2q) :=
    (insSort_perm descLeA _).trans (insSort_perm ascLeA _)
  show insSort descLeA (mergeValsG annualKey (insSort ascLeA
      ((extract_annual_data today l i2q).filter (annualKeep today i2q)))) =
    extract_annual_data today l i2q
  rw [hfilter, hmerge]
  exact sorted_perm_eq_of_antisymm descLeA hpp
    (pairwise_insSort descLeA descLeA_total (fun a b c h1 h2 => descLeA_trans h1 h2) _)
    hsorted
    (fun a ha b hb ht => hanti a (hpp.mem_iff.mp ha) b (hpp.mem_iff.mp hb) ht)

/-! ### The quarterly filter pass is idempotent on its own outputs -/

theorem fmt10_ne_empty (dt : Date) : fmt10 dt ≠ "" := by
  intro h
  have h2 := congrArg String.data h
  simp [fmt10, pad4] at h2

theorem calcq_ne_empty {fy pt q : String}
    (h : _calculate_quarter_end_date fy pt = some q) : q ≠ "" := by
  unfold _calculate_quarter_end_date at h
  dsimp only at h
  split at h
  · cases h
  · split at h
    · cases h
    · obtain ⟨dt, _, hq⟩ := Option.map_eq_some'.mp h
      rw [← hq]
      exact fmt10_ne_empty dt

theorem isQuarterType_facts {pt : String} (h : isQuarterType pt = true) :
    pt ≠ "" ∧ pt ≠ "FY" := by
  unfold isQuarterType at h
  simp only [Bool.or_eq_true, decide_eq_true_eq] at h
  rcases h with ((((((h | h) | h) | h) | h) | h) | h) | h <;> subst h <;>
    exact ⟨by decide, by decide⟩

theorem quarterlyStep_eval_some (today : Date) (m : Rec) {pt q : String}
    (hpt : pyGetD m "CurPerType" (Val.str "") = Val.str pt)
    (hcalc : _calculate_quarter_end_date (getStr m "CurFYEn") pt = some q) :
    quarterlyStep today m =
      (if !isQuarterType pt then Option.none
       else if getStr m "CurFYEn" = "" then Option.none
       else if ymFuture today (sliceInt q 0 4, sliceInt q 5 7) then Option.none
       else if is_valid_financial_record (setV m "_quarter_end_date" (Val.str q)) then
         some (setV m "_quarter_end_date" (Val.str q))
       else Option.none) := by
  unfold quarterlyStep
  rw [hpt]
  simp only [hcalc]

theorem quarterlyStep_eval_none (today : Date) (m : Rec) {pt : String}
    (hpt : pyGetD m "CurPerType" (Val.str "") = Val.str pt)
    (hcalc : _calculate_quarter_end_date (getStr m "CurFYEn") pt = Option.none) :
    quarterlyStep today m =
      (if !isQuarterType pt then Option.none
       else if getStr m "CurFYEn" = "" then Option.none
       else if is_valid_financial_record m then some m else Option.none) := by
  unfold quarterlyStep
  rw [hpt]
  simp only [hcalc]

theorem quarterlyStep_inv {today : Date} {r r' : Rec} (h : quarterlyStep today r = some r') :
    ∃ pt, pyGetD r "CurPerType" (Val.str "") = Val.str pt ∧ isQuarterType pt = true ∧
      getStr r "CurFYEn" ≠ "" ∧
      ((∃ q, _calculate_quarter_end_date (getStr r "CurFYEn") pt = some q ∧
          r' = setV r "_quarter_end_date" (Val.str q) ∧
          ymFuture today (sliceInt q 0 4, sliceInt q 5 7) = false ∧
          is_valid_financial_record r' = true) ∨
        (_calculate_quarter_end_date (getStr r "CurFYEn") pt = Option.none ∧ r' = r ∧
          is_valid_financial_record r = true)) := by
  cases hpt : pyGetD r "CurPerType" (Val.str "") with
  | none =>
    unfold quarterlyStep at h
    rw [hpt] at h
    simp at h
  | nan =>
    unfold quarterlyStep at h
    rw [hpt] at h
    simp at h
  | num x =>
    unfold quarterlyStep at h
    rw [hpt] at h
    simp at h
  | str pt =>
    by_cases hq : isQuarterType pt = true
    · by_cases hfy : getStr r "CurFYEn" = ""
      · unfold quarterlyStep at h
        rw [hpt] at h
        simp [hq, hfy] at h
      · cases hcalc : _calculate_quarter_end_date (getStr r "CurFYEn") pt with
        | some q =>
          rw [quarterlyStep_eval_some today r hpt hcalc] at h
          rw [if_neg (by rw [hq]; simp), if_neg hfy] at h
          by_cases hym : ymFuture today (sliceInt q 0 4, sliceInt q 5 7) = true
          · rw [if_pos hym] at h
            cases h
          · rw [if_neg hym] at h
            by_cases hval :
                is_valid_financial_record (setV r "_quarter_end_date" (Val.str q)) = true
            · rw [if_pos hval] at h
              have hr' : r' = setV r "_quarter_end_date" (Val.str q) :=
                (Option.some.inj h).symm
              subst hr'
              exact ⟨pt, rfl, hq, hfy, Or.inl ⟨q, hcalc, rfl, b_eq_false hym, hval⟩⟩
            · rw [if_neg hval] at h
              cases h
        | none =>
          rw [quarterlyStep_eval_none today r hpt hcalc] at h
          rw [if_neg (by rw [hq]; simp), if_neg hfy] at h
          by_cases hval : is_valid_financial_record r = true
          · rw [if_pos hval] at h
            have hr' : r' = r := (Option.some.inj h).symm
            subst hr'
            exact ⟨pt, rfl, hq, hfy, Or.inr ⟨hcalc, rfl, hval⟩⟩
          · rw [if_neg hval] at h
            cases h
    · unfold quarterlyStep at h
      rw [hpt] at h
      simp [b_eq_false hq] at h

theorem quarterlyStep_self_calc {today : Date} {m : Rec} {pt q : String}
    (hpt : pyGetD m "CurPerType" (Val.str "") = Val.str pt)
    (hq : isQuarterType pt = true)
    (hfy : getStr m "CurFYEn" ≠ "")
    (hcalc : _calculate_quarter_end_date (getStr m "CurFYEn") pt = some q)
    (hqv : getV m "_quarter_end_date" = some (Val.str q))
    (hym : ymFuture today (sliceInt q 0 4, sliceInt q 5 7) = false)
    (hval : is_valid_financial_record m = true) :
    quarterlyStep today m = some m := by
  rw [quarterlyStep_eval_some today m hpt hcalc, setV_id hqv]
  rw [if_neg (by rw [hq]; simp), if_neg hfy, if_neg (by rw [hym]; simp), if_pos hval]

theorem quarterlyStep_self_nocalc {today : Date} {m : Rec} {pt : String}
    (hpt : pyGetD m "CurPerType" (Val.str "") = Val.str pt)
    (hq : isQuarterType pt = true)
    (hfy : getStr m "CurFYEn" ≠ "")
    (hcalc : _calculate_quarter_end_date (getStr m "CurFYEn") pt = Option.none)
    (hval : is_valid_financial_record m = true) :
    quarterlyStep today m = some m := by
  rw [quarterlyStep_eval_none today m hpt hcalc]
  rw [if_neg (by rw [hq]; simp), if_neg hfy, if_pos hval]

theorem quarterlyStep_idem {today : Date} {r r' : Rec}
    (h : quarterlyStep today r = some r') : quarterlyStep today r' = some r' := by
  obtain ⟨pt, hpt, hq, hfy, hcase⟩ := quarterlyStep_inv h
  rcases hcase with ⟨q, hcalc, hr', hym, hval⟩ | ⟨hcalc, hr', hval⟩
  · have hpt' : pyGetD r' "CurPerType" (Val.str "") = Val.str pt := by
      rw [hr']
      unfold pyGetD at hpt ⊢
      rw [getV_setV_ne r _ (by decide)]
      exact hpt
    have hfy' : getStr r' "CurFYEn" = getStr r "CurFYEn" := by
      rw [hr']
      unfold getStr pyGetD
      rw [getV_setV_ne r _ (by decide)]
    have hqv' : getV r' "_quarter_end_date" = some (Val.str q) := by
      rw [hr']
      exact getV_setV_self r _ _
    refine quarterlyStep_self_calc hpt' hq ?_ ?_ hqv' hym hval
    · rw [hfy']
      exact hfy
    · rw [hfy']
      exact hcalc
  · subst hr'
    exact h

theorem quarterlyStep_nodup {today : Date} {r r' : Rec} (h : quarterlyStep today r = some r')
    (hnd : (r.map Prod.fst).Nodup) : (r'.map Prod.fst).Nodup := by
  obtain ⟨pt, _, _, _, hcase⟩ := quarterlyStep_inv h
  rcases hcase with ⟨q, _, hr', _, _⟩ | ⟨_, hr', _⟩
  · rw [hr']
    exact setV_keys_nodup _ _ hnd
  · rw [hr']
    exact hnd

theorem mkQ4_keys_nodup {q3m : List (Val × Rec)} {fy_rec r : Rec}
    (h : mkQ4 q3m fy_rec = some r) (hnd : (fy_rec.map Prod.fst).Nodup) :
    (r.map Prod.fst).Nodup := by
  simp only [mkQ4] at h
  by_cases ht : (pyGetD fy_rec "CurFYEn" (Val.str "")).truthy = true
  · rw [if_pos ht] at h
    cases hlk : lookupK q3m (pyGetD fy_rec "CurFYEn" (Val.str "")) with
    | none =>
      rw [hlk] at h
      have hr := (Option.some.inj h).symm
      subst hr
      exact setV_keys_nodup _ _ hnd
    | some q3r =>
      rw [hlk] at h
      have hr := (Option.some.inj h).symm
      subst hr
      exact setV_keys_nodup _ _ (setV_keys_nodup _ _ (setV_keys_nodup _ _
        (setV_keys_nodup _ _ (setV_keys_nodup _ _ (setV_keys_nodup _ _
          (setV_keys_nodup _ _ (setV_keys_nodup _ _ (setV_keys_nodup _ _ hnd))))))))
  · rw [if_neg ht] at h
    cases h

theorem quarterlyKey_eval (r : Rec) :
    quarterlyKey r =
      (if (pyGetD r "_quarter_end_date" (Val.str "")).truthy = true then
        some (pyGetD r "_quarter_end_date" (Val.str ""), pyGetD r "CurPerType" (Val.str ""))
      else if (pyGetD r "CurFYEn" (Val.str "")).truthy = true then
        some (pyGetD r "CurFYEn" (Val.str ""), pyGetD r "CurPerType" (Val.str ""))
      else Option.none) := rfl

theorem quarterlyKey_some_of_fix {today : Date} {m : Rec}
    (h : quarterlyStep today m = some m) : ∃ k, quarterlyKey m = some k := by
  obtain ⟨pt, hpt, hq, hfy, _⟩ := quarterlyStep_inv h
  obtain ⟨fy, hfyne, hfygv⟩ := getStr_ne_empty hfy
  rw [quarterlyKey_eval]
  by_cases hqt : (pyGetD m "_quarter_end_date" (Val.str "")).truthy = true
  · rw [if_pos hqt]
    exact ⟨_, rfl⟩
  · rw [if_neg hqt]
    have hfyD : pyGetD m "CurFYEn" (Val.str "") = Val.str fy := by
      unfold pyGetD
      rw [hfygv]
      rfl
    rw [hfyD, if_pos (by simp [Val.truthy, hfyne])]
    exact ⟨_, rfl⟩

/-! ### The quarterly merge preserves step-fixedness and the merge key -/

theorem quarterly_merge_fix (today : Date) {ex r : Rec} {k : Val × Val}
    (hkey_ex : quarterlyKey ex = some k)
    (hr_fix : quarterlyStep today r = some r)
    (hkey_r : quarterlyKey r = some k)
    (hnd_r : (r.map Prod.fst).Nodup) :
    quarterlyStep today (mergeTwo ex r) = some (mergeTwo ex r) ∧
      quarterlyKey (mergeTwo ex r) = some k := by
  obtain ⟨pt, hpt, hq, hfy, hcase⟩ := quarterlyStep_inv hr_fix
  obtain ⟨fy, hfyne, hfygv⟩ := getStr_ne_empty hfy
  have hfy_str : getStr r "CurFYEn" = fy := by
    rw [getStr_eq_strOfVal]
    unfold pyGet
    rw [hfygv]
    rfl
  have hpt_ne : pt ≠ "" := (isQuarterType_facts hq).1
  have hptr : pyGet r "CurPerType" = Val.str pt := by
    unfold pyGetD at hpt
    unfold pyGet
    cases hgv : getV r "CurPerType" with
    | none =>
      rw [hgv] at hpt
      exact absurd (Val.str.inj hpt).symm hpt_ne
    | some v =>
      rw [hgv] at hpt
      exact hpt
  have hpt_truthy : (pyGet r "CurPerType").truthy = true := by
    rw [hptr]
    simp [Val.truthy, hpt_ne]
  have hptm : pyGet (mergeTwo ex r) "CurPerType" = Val.str pt := by
    rw [truthy_field_mergeTwo ex hnd_r (by decide) hpt_truthy]
    exact hptr
  have hptm' : pyGetD (mergeTwo ex r) "CurPerType" (Val.str "") = Val.str pt := by
    rw [pyGetD_empty_eq_of_truthy (by rw [hptm]; simp [Val.truthy, hpt_ne])]
    exact hptm
  have hfy_truthy : (pyGet r "CurFYEn").truthy = true := by
    unfold pyGet
    rw [hfygv]
    simp [Val.truthy, hfyne]
  have hfym : pyGet (mergeTwo ex r) "CurFYEn" = Val.str fy := by
    rw [truthy_field_mergeTwo ex hnd_r (by decide) hfy_truthy]
    unfold pyGet
    rw [hfygv]
    rfl
  have hfym_str : getStr (mergeTwo ex r) "CurFYEn" = fy := by
    rw [getStr_eq_strOfVal, hfym]
    rfl
  have hfym_ne : getStr (mergeTwo ex r) "CurFYEn" ≠ "" := by
    rw [hfym_str]
    exact hfyne
  have hfymD : pyGetD (mergeTwo ex r) "CurFYEn" (Val.str "") = Val.str fy := by
    rw [pyGetD_empty_eq_of_truthy (by rw [hfym]; simp [Val.truthy, hfyne])]
    exact hfym
  have hfyrD : pyGetD r "CurFYEn" (Val.str "") = Val.str fy := by
    rw [pyGetD_empty_eq_of_truthy hfy_truthy]
    unfold pyGet
    rw [hfygv]
    rfl
  have hvalr : is_valid_financial_record r = true := by
    rcases hcase with ⟨q, _, _, _, hval⟩ | ⟨_, _, hval⟩
    · exact hval
    · exact hval
  have hvalm := valid_mergeTwo ex hnd_r hvalr
  rcases hcase with ⟨q, hcalc, hrq, hym, _⟩ | ⟨hcalc, _, _⟩
  · -- the quarter end was computed and stamped
    have hqvr : getV r "_quarter_end_date" = some (Val.str q) := by
      have hself := getV_setV_self r "_quarter_end_date" (Val.str q)
      rw [← hrq] at hself
      exact hself
    have hqne : q ≠ "" := calcq_ne_empty hcalc
    have hq_truthy : (pyGet r "_quarter_end_date").truthy = true := by
      unfold pyGet
      rw [hqvr]
      simp [Val.truthy, hqne]
    have hqvm_p : pyGet (mergeTwo ex r) "_quarter_end_date" = Val.str q := by
      rw [truthy_field_mergeTwo ex hnd_r (by decide) hq_truthy]
      unfold pyGet
      rw [hqvr]
      rfl
    have hqvm : getV (mergeTwo ex r) "_quarter_end_date" = some (Val.str q) :=
      getV_of_pyGet_ne hqvm_p (by simp)
    have hcalc_m :
        _calculate_quarter_end_date (getStr (mergeTwo ex r) "CurFYEn") pt = some q := by
      rw [hfym_str, ← hfy_str]
      exact hcalc
    refine ⟨quarterlyStep_self_calc hptm' hq hfym_ne hcalc_m hqvm hym hvalm, ?_⟩
    have hqmD : pyGetD (mergeTwo ex r) "_quarter_end_date" (Val.str "") = Val.str q := by
      rw [pyGetD_empty_eq_of_truthy (by rw [hqvm_p]; simp [Val.truthy, hqne])]
      exact hqvm_p
    have hqrD : pyGetD r "_quarter_end_date" (Val.str "") = Val.str q := by
      rw [pyGetD_empty_eq_of_truthy hq_truthy]
      unfold pyGet
      rw [hqvr]
      rfl
    rw [quarterlyKey_eval] at hkey_r ⊢
    rw [hqrD, hpt, if_pos (by simp [Val.truthy, hqne])] at hkey_r
    rw [hqmD, hptm', if_pos (by simp [Val.truthy, hqne])]
    exact hkey_r
  · -- no computable quarter end: the record passes through unstamped
    have hcalc_m :
        _calculate_quarter_end_date (getStr (mergeTwo ex r) "CurFYEn") pt = Option.none := by
      rw [hfym_str, ← hfy_str]
      exact hcalc
    refine ⟨quarterlyStep_self_nocalc hptm' hq hfym_ne hcalc_m hvalm, ?_⟩
    rw [quarterlyKey_eval] at hkey_r ⊢
    rw [hptm']
    cases hgq : getV r "_quarter_end_date" with
    | some v =>
      have hvq : pyGet r "_quarter_end_date" = v := by
        unfold pyGet
        rw [hgq]
        rfl
      have hvD : pyGetD r "_quarter_end_date" (Val.str "") = v := by
        unfold pyGetD
        rw [hgq]
        rfl
      by_cases hvt : v.truthy = true
      · have hqm : pyGet (mergeTwo ex r) "_quarter_end_date" = v := by
          rw [truthy_field_mergeTwo ex hnd_r (by decide) (by rw [hvq]; exact hvt)]
          exact hvq
        have hqmD : pyGetD (mergeTwo ex r) "_quarter_end_date" (Val.str "") = v := by
          rw [pyGetD_empty_eq_of_truthy (by rw [hqm]; exact hvt)]
          exact hqm
        rw [hqmD, if_pos hvt]
        rw [hvD, if_pos hvt, hpt] at hkey_r
        exact hkey_r
      · rw [hvD, if_neg hvt, hfyrD, if_pos (by simp [Val.truthy, hfyne]), hpt] at hkey_r
        have hk_pair : (Val.str fy, Val.str pt) = k := Option.some.inj hkey_r
        have hmq_match : pyGet (mergeTwo ex r) "_quarter_end_date" =
            (if overwriteGuard v then v else pyGet ex "_quarter_end_date") := by
          rw [mergeTwo_field ex r (by decide) hnd_r, hgq]
        by_cases hgv : overwriteGuard v = true
        · have hqmD_t :
              (pyGetD (mergeTwo ex r) "_quarter_end_date" (Val.str "")).truthy = false := by
            rw [pyGetD_empty_truthy, hmq_match, if_pos hgv]
            exact b_eq_false hvt
          rw [if_neg (by rw [hqmD_t]; simp), hfymD,
            if_pos (by simp [Val.truthy, hfyne]), ← hk_pair]
        · have hmq : pyGet (mergeTwo ex r) "_quarter_end_date" =
              pyGet ex "_quarter_end_date" := by
            rw [hmq_match, if_neg hgv]
          rw [quarterlyKey_eval] at hkey_ex
          by_cases hext : (pyGetD ex "_quarter_end_date" (Val.str "")).truthy = true
          · rw [if_pos hext] at hkey_ex
            have hexq_val : pyGetD ex "_quarter_end_date" (Val.str "") = Val.str fy :=
              congrArg Prod.fst ((Option.some.inj hkey_ex).trans hk_pair.symm)
            have hext_p : (pyGet ex "_quarter_end_date").truthy = true := by
              rw [← pyGetD_empty_truthy, hexq_val]
              simp [Val.truthy, hfyne]
            have hexq_p : pyGet ex "_quarter_end_date" = Val.str fy := by
              rw [← pyGetD_empty_eq_of_truthy hext_p]
              exact hexq_val
            have hqm_val : pyGet (mergeTwo ex r) "_quarter_end_date" = Val.str fy := by
              rw [hmq, hexq_p]
            have hqmD : pyGetD (mergeTwo ex r) "_quarter_end_date" (Val.str "") =
                Val.str fy := by
              rw [pyGetD_empty_eq_of_truthy (by rw [hqm_val]; simp [Val.truthy, hfyne])]
              exact hqm_val
            rw [hqmD, if_pos (by simp [Val.truthy, hfyne]), ← hk_pair]
          · have hqm_f :
                (pyGetD (mergeTwo ex r) "_quarter_end_date" (Val.str "")).truthy = false := by
              rw [pyGetD_empty_truthy, hmq, ← pyGetD_empty_truthy]
              exact b_eq_false hext
            rw [if_neg (by rw [hqm_f]; simp), hfymD,
              if_pos (by simp [Val.truthy, hfyne]), ← hk_pair]
    | none =>
      have hvD : pyGetD r "_quarter_end_date" (Val.str "") = Val.str "" := by
        unfold pyGetD
        rw [hgq]
        rfl
      rw [hvD, if_neg (by simp [Val.truthy]), hfyrD,
        if_pos (by simp [Val.truthy, hfyne]), hpt] at hkey_r
      have hk_pair : (Val.str fy, Val.str pt) = k := Option.some.inj hkey_r
      have hmq : pyGet (mergeTwo ex r) "_quarter_end_date" =
          pyGet ex "_quarter_end_date" := by
        rw [mergeTwo_field ex r (by decide) hnd_r, hgq]
      rw [quarterlyKey_eval] at hkey_ex
      by_cases hext : (pyGetD ex "_quarter_end_date" (Val.str "")).truthy = true
      · rw [if_pos hext] at hkey_ex
        have hexq_val : pyGetD ex "_quarter_end_date" (Val.str "") = Val.str fy :=
          congrArg Prod.fst ((Option.some.inj hkey_ex).trans hk_pair.symm)
        have hext_p : (pyGet ex "_quarter_end_date").truthy = true := by
          rw [← pyGetD_empty_truthy, hexq_val]
          simp [Val.truthy, hfyne]
        have hexq_p : pyGet ex "_quarter_end_date" = Val.str fy := by
          rw [← pyGetD_empty_eq_of_truthy hext_p]
          exact hexq_val
        have hqm_val : pyGet (mergeTwo ex r) "_quarter_end_date" = Val.str fy := by
          rw [hmq, hexq_p]
        have hqmD : pyGetD (mergeTwo ex r) "_quarter_end_date" (Val.str "") =
            Val.str fy := by
          rw [pyGetD_empty_eq_of_truthy (by rw [hqm_val]; simp [Val.truthy, hfyne])]
          exact hqm_val
        rw [hqmD, if_pos (by simp [Val.truthy, hfyne]), ← hk_pair]
      · have hqm_f :
            (pyGetD (mergeTwo ex r) "_quarter_end_date" (Val.str "")).truthy = false := by
          rw [pyGetD_empty_truthy, hmq, ← pyGetD_empty_truthy]
          exact b_eq_false hext
        rw [if_neg (by rw [hqm_f]; simp), hfymD,
          if_pos (by simp [Val.truthy, hfyne]), ← hk_pair]

/-! ### Shape of the quarterly extraction output -/

theorem quarterly_out_inv (today : Date) (l : List Rec) (qn : ℕ)
    (hl : ∀ r ∈ l, (r.map Prod.fst).Nodup) :
    (∀ m ∈ extract_quarterly_data today l qn,
        quarterlyStep today m = some m ∧ (m.map Prod.fst).Nodup) ∧
      ((extract_quarterly_data today l qn).map quarterlyKey).Nodup ∧
      (extract_quarterly_data today l qn).Pairwise (fun a b => descLeQ a b = true) := by
  have hnodup_in : ∀ r ∈ l ++ synthQ4s l, (r.map Prod.fst).Nodup := by
    intro r hr
    rcases List.mem_append.mp hr with hr | hr
    · exact hl r hr
    · unfold synthQ4s at hr
      obtain ⟨fy_rec, hfil, hmk⟩ := List.mem_filterMap.mp hr
      exact mkQ4_keys_nodup hmk (hl fy_rec (List.mem_filter.mp hfil).1)
  have hR : ∀ r ∈ insSort ascLeQ ((l ++ synthQ4s l).filterMap (quarterlyStep today)),
      quarterlyStep today r = some r ∧ (r.map Prod.fst).Nodup := by
    intro r hr
    have hr' := (insSort_perm ascLeQ _).mem_iff.mp hr
    obtain ⟨r0, hr0, hstep⟩ := List.mem_filterMap.mp hr'
    exact ⟨quarterlyStep_idem hstep, quarterlyStep_nodup hstep (hnodup_in r0 hr0)⟩
  have hinv := mergeFold_inv quarterlyKey
    (fun r => quarterlyStep today r = some r ∧ (r.map Prod.fst).Nodup)
    (fun k m => quarterlyStep today m = some m ∧ quarterlyKey m = some k ∧
      (m.map Prod.fst).Nodup)
    (fun r k hR0 hk => ⟨hR0.1, hk, hR0.2⟩)
    (fun k ex r hP hR0 hk => by
      obtain ⟨hfix, hkey⟩ := quarterly_merge_fix today hP.2.1 hR0.1 hk hR0.2
      exact ⟨hfix, hkey, mergeTwo_keys_nodup ex r hP.2.2⟩)
    (insSort ascLeQ ((l ++ synthQ4s l).filterMap (quarterlyStep today))) []
    (by intro p hp; cases hp) hR
  have hfst := mergeFold_fst_nodup quarterlyKey
    (insSort ascLeQ ((l ++ synthQ4s l).filterMap (quarterlyStep today))) [] (by simp)
  have hext : extract_quarterly_data today l qn =
      (insSort descLeQ ((mergeFoldG quarterlyKey []
        (insSort ascLeQ ((l ++ synthQ4s l).filterMap (quarterlyStep today)))).map
          Prod.snd)).take qn := rfl
  have hsub : (extract_quarterly_data today l qn).Sublist
      (insSort descLeQ ((mergeFoldG quarterlyKey []
        (insSort ascLeQ ((l ++ synthQ4s l).filterMap (quarterlyStep today)))).map
          Prod.snd)) := by
    rw [hext]
    exact List.take_sublist _ _
  have hperm : (insSort descLeQ ((mergeFoldG quarterlyKey []
      (insSort ascLeQ ((l ++ synthQ4s l).filterMap (quarterlyStep today)))).map
        Prod.snd)).Perm
      ((mergeFoldG quarterlyKey []
        (insSort ascLeQ ((l ++ synthQ4s l).filterMap (quarterlyStep today)))).map
          Prod.snd) := insSort_perm _ _
  refine ⟨?_, ?_, ?_⟩
  · intro m hm
    have hm2 := hperm.mem_iff.mp (hsub.subset hm)
    obtain ⟨p, hp, hpm⟩ := List.mem_map.mp hm2
    obtain ⟨hfix, _, hnd⟩ := hinv p hp
    subst hpm
    exact ⟨hfix, hnd⟩
  · have hmk : ((mergeFoldG quarterlyKey []
        (insSort ascLeQ ((l ++ synthQ4s l).filterMap (quarterlyStep today)))).map
          Prod.snd).map quarterlyKey =
        ((mergeFoldG quarterlyKey []
          (insSort ascLeQ ((l ++ synthQ4s l).filterMap (quarterlyStep today)))).map
            Prod.fst).map some := by
      rw [List.map_map, List.map_map]
      exact List.map_congr_left (fun p hp => (hinv p hp).2.1)
    have hnd2 : (((mergeFoldG quarterlyKey []
        (insSort ascLeQ ((l ++ synthQ4s l).filterMap (quarterlyStep today)))).map
          Prod.snd).map quarterlyKey).Nodup := by
      rw [hmk]
      exact hfst.map (Option.some_injective (Val × Val))
    have hndw := ((hperm.map quarterlyKey).nodup_iff).mpr hnd2
    rw [hext]
    exact hndw.sublist ((List.take_sublist _ _).map quarterlyKey)
  · rw [hext]
    exact (pairwise_insSort descLeQ descLeQ_total
      (fun a b c h1 h2 => descLeQ_trans h1 h2) _).sublist (List.take_sublist _ _)

/-! ### The quarterly extraction is idempotent -/

theorem quarterly_idem (today : Date) (l : List Rec) (qn : ℕ)
    (hl : ∀ r ∈ l, (r.map Prod.fst).Nodup) :
    extract_quarterly_data today (extract_quarterly_data today l qn) qn =
      extract_quarterly_data today l qn := by
  obtain ⟨hmem, hkeys, hsorted⟩ := quarterly_out_inv today l qn hl
  have hsynth : synthQ4s (extract_quarterly_data today l qn) = [] := by
    unfold synthQ4s
    have hfil : (extract_quarterly_data today l qn).filter
        (fun r => pyGet r "CurPerType" = Val.str "FY") = [] := by
      rw [List.filter_eq_nil_iff]
      intro m hm
      obtain ⟨pt, hpt, hq, _, _⟩ := quarterlyStep_inv (hmem m hm).1
      intro hFY
      have hFY' : pyGet m "CurPerType" = Val.str "FY" := by simpa using hFY
      have hD : pyGetD m "CurPerType" (Val.str "") = Val.str "FY" := by
        rw [pyGetD_empty_eq_of_truthy (by rw [hFY']; simp [Val.truthy])]
        exact hFY'
      have : pt = "FY" := Val.str.inj (hpt.symm.trans hD)
      exact (isQuarterType_facts hq).2 this
    rw [hfil]
    rfl
  have hfix : (extract_quarterly_data today l qn).filterMap (quarterlyStep today) =
      extract_quarterly_data today l qn :=
    filterMap_id_of_fix (fun m hm => (hmem m hm).1)
  have hsome : ∀ m ∈ insSort ascLeQ (extract_quarterly_data today l qn),
      ∃ k, quarterlyKey m = some k := by
    intro m hm
    have hm' := (insSort_perm ascLeQ _).mem_iff.mp hm
    exact quarterlyKey_some_of_fix (hmem m hm').1
  have hndz : ((insSort ascLeQ (extract_quarterly_data today l qn)).map quarterlyKey).Nodup :=
    (((insSort_perm ascLeQ _).map quarterlyKey).nodup_iff).mpr hkeys
  have hmerge : mergeValsG quarterlyKey
      (insSort ascLeQ (extract_quarterly_data today l qn)) =
      insSort ascLeQ (extract_quarterly_data today l qn) :=
    mergeVals_eq_self quarterlyKey _ hsome hndz
  have hw : insSort descLeQ (insSort ascLeQ (extract_quarterly_data today l qn)) =
      extract_quarterly_data today l qn := by
    refine sorted_perm_eq_of_ties descLeQ descLeQ_refl
      ((insSort_perm descLeQ _).trans (insSort_perm ascLeQ _))
      (pairwise_insSort descLeQ descLeQ_total (fun a b c h1 h2 => descLeQ_trans h1 h2) _)
      hsorted ?_
    intro c
    rw [filter_insSort descLeQ (tieB descLeQ c)
        (fun a b ha hb => descLeQ_tie_compat ha hb) _,
      filter_insSort ascLeQ (tieB descLeQ c)
        (fun a b ha hb => ascLeQ_tie_compat ha hb) _]
  have hlen : (extract_quarterly_data today l qn).length ≤ qn := by
    show (((insSort descLeQ (mergeValsG quarterlyKey (insSort ascLeQ
      ((l ++ synthQ4s l).filterMap (quarterlyStep today))))).take qn)).length ≤ qn
    rw [List.length_take]
    exact min_le_left _ _
  show (insSort descLeQ (mergeValsG quarterlyKey (insSort ascLeQ
      (((extract_quarterly_data today l qn) ++
        synthQ4s (extract_quarterly_data today l qn)).filterMap
          (quarterlyStep today))))).take qn = extract_quarterly_data today l qn
  rw [hsynth, List.append_nil, hfix, hmerge, hw]
  exact List.take_of_length_le hlen

/-- C3: reconciling the same raw-record set twice yields identical reconciled
period lists — running the annual (or quarterly) extraction a second time on
its own output returns that output unchanged, with the same order and the same
field values.  (Records are Python dicts, so each input record carries
pairwise-distinct field names.) -/
theorem C3_idempotence (today : Date) (l lq : List Rec) (include_2q : Bool) (quarters : ℕ)
    (hl : ∀ r ∈ l, (r.map Prod.fst).Nodup) (hlq : ∀ r ∈ lq, (r.map Prod.fst).Nodup) :
    extract_annual_data today (extract_annual_data today l include_2q) include_2q =
      extract_annual_data today l include_2q ∧
    extract_quarterly_data today (extract_quarterly_data today lq quarters) quarters =
      extract_quarterly_data today lq quarters :=
  ⟨annual_idem today include_2q l hl, quarterly_idem today lq quarters hlq⟩

/-- Witness for C3 at concrete annual and quarterly inputs. -/
theorem C3_witness :
    extract_annual_data exToday
        (extract_annual_data exToday [exRecEarly, exRecLate120] true) true =
      extract_annual_data exToday [exRecEarly, exRecLate120] true ∧
    extract_quarterly_data exToday (extract_quarterly_data exToday exQIn 8) 8 =
      extract_quarterly_data exToday exQIn 8 :=
  C3_idempotence exToday [exRecEarly, exRecLate120] exQIn true 8 (by decide) (by decide)

end Mebuki
